import Mathlib

/-!
Verification development for the core simulation of "Le Pire Cube"
(src/cube.js): 3D vector algebra, convex-polygon point containment,
the procedural world generator, the avatar state machine and the
event-driven `Game.update` tick.

Two shallow embeddings are used:

* an executable embedding over `ℚ` of the avatar/game state machine.
  The JavaScript code computes with IEEE doubles and calls the
  transcendental functions `Math.cos`, `Math.sin`, `Math.atan2` and
  `x ** 0.5`; those four primitives are abstracted as an explicit
  parameter record `JsMath`, so every theorem proved over this
  embedding holds for every interpretation of the primitives.  All
  other arithmetic of the source is embedded exactly.

* an embedding over `ℝ` (`Vect`, `VPath`, the generator's closed-form
  `n`), used for the claims that are about exact arithmetic
  (`normalize`, point-in-path geometry, the power-up placement
  formula); `x ** 0.5` is `Real.sqrt` there.

Numeric literals of the source (`PI`, `SQRT2`, `EPSILON`, the
`GameSettings` values) are the exact rational values of the decimal
literals in src/cube.js.
-/

/-- The literal `PI` of src/cube.js line 9 (a decimal literal, not π). -/
def PI : ℚ := 3141592653589793 / 1000000000000000

/-- The literal `SQRT2` of src/cube.js line 10. -/
def SQRT2 : ℚ := 1414213562373095 / 1000000000000000

/-- The literal `EPSILON` of src/cube.js line 12. -/
def EPSILON : ℚ := 1 / 1000000

/-- Three-dimensional vector over `ℚ` (class `Vect`, src/cube.js 17-146),
used by the executable game-state embedding. -/
structure QVect where
  x : ℚ
  y : ℚ
  z : ℚ
deriving DecidableEq, Repr

namespace QVect

/-- `Vect.ZERO`. -/
def zero : QVect := ⟨0, 0, 0⟩

/-- `Vect.ONE`. -/
def one : QVect := ⟨1, 1, 1⟩

/-- `Vect.add`. -/
def add (v w : QVect) : QVect := ⟨v.x + w.x, v.y + w.y, v.z + w.z⟩

/-- `Vect.multiply` by a scalar. -/
def multiply (v : QVect) (lambda : ℚ) : QVect := ⟨v.x * lambda, v.y * lambda, v.z * lambda⟩

/-- `Vect.substract`. -/
def substract (v w : QVect) : QVect := v.add (w.multiply (-1))

/-- `Vect.dot`. -/
def dot (v w : QVect) : ℚ := v.x * w.x + v.y * w.y + v.z * w.z

/-- `Vect.cross`. -/
def cross (v w : QVect) : QVect :=
  ⟨v.y * w.z - v.z * w.y, v.z * w.x - v.x * w.z, v.x * w.y - v.y * w.x⟩

/-- `Vect.lengthSquared`. -/
def lengthSquared (v : QVect) : ℚ := v.dot v

/-- `Vect.cloneX`. -/
def cloneX (v : QVect) : QVect := ⟨v.x, 0, 0⟩

/-- `Vect.cloneY`. -/
def cloneY (v : QVect) : QVect := ⟨0, v.y, 0⟩

/-- `Vect.cloneZ`. -/
def cloneZ (v : QVect) : QVect := ⟨0, 0, v.z⟩

/-- `Vect.cloneXY`. -/
def cloneXY (v : QVect) : QVect := ⟨v.x, v.y, 0⟩

end QVect

/-- The four transcendental primitives of the JavaScript `Math` object
used by the simulation core (`Math.cos`, `Math.sin`, `Math.atan2` and
`x ** 0.5`).  The game-state embedding is parametric in them. -/
structure JsMath where
  cos : ℚ → ℚ
  sin : ℚ → ℚ
  atan2 : ℚ → ℚ → ℚ
  sqrt : ℚ → ℚ

/-- `Vect.length` under a `JsMath` interpretation (`lengthSquared ** 0.5`). -/
def QVect.length (m : JsMath) (v : QVect) : ℚ := m.sqrt v.lengthSquared

/-- `Vect.normalize` (src/cube.js 43-49): fails (throws) exactly when the
computed length is zero. -/
def QVect.normalize (m : JsMath) (v : QVect) : Option QVect :=
  let l := v.length m
  if l = 0 then none else some (v.multiply (1 / l))

/-- `Vect.rotateZ` under a `JsMath` interpretation (src/cube.js 115-117). -/
def QVect.rotateZ (m : JsMath) (theta : ℚ) (v : QVect) : QVect :=
  ⟨v.x * m.cos theta - v.y * m.sin theta, v.y * m.cos theta + v.x * m.sin theta, v.z⟩

/-- Truncation toward zero, as JavaScript division inside `%` rounds. -/
def qtrunc (q : ℚ) : ℤ := if 0 ≤ q then ⌊q⌋ else ⌈q⌉

/-- The JavaScript remainder operator `a % b`: `a - b * trunc (a / b)`,
whose result carries the sign of the dividend. -/
def jsMod (a b : ℚ) : ℚ := a - b * (qtrunc (a / b) : ℚ)

/-- `Math.min(...dts)` over a (non-empty) array. -/
def listMin : List ℚ → ℚ
  | [] => 0
  | h :: t => t.foldl min h

/-- Planar polygon over `ℚ` (class `Path`, src/cube.js 189-242): the
vertex list together with the normal computed by the constructor. -/
structure QPath where
  vertices : List QVect
  normal : QVect
deriving DecidableEq, Repr

/-- The `Path` constructor (src/cube.js 193-202): fails when fewer than
three vertices are given, and computes
`normal = normalize (cross (v1 - v0) (v2 - v1))`, which itself fails on a
degenerate (zero-length) cross product.  The stored vertex list is the
input list unchanged. -/
def mkQPath (m : JsMath) (vects : List QVect) : Option QPath :=
  match vects with
  | v0 :: v1 :: v2 :: _ =>
    match ((v1.substract v0).cross (v2.substract v1)).normalize m with
    | none => none
    | some n => some ⟨vects, n⟩
  | _ => none

/-- `Path._call`: map a vertex transformation and rebuild the path through
the constructor (so the normal is recomputed, as in the source). -/
def QPath.callMap (m : JsMath) (f : QVect → QVect) (p : QPath) : Option QPath :=
  mkQPath m (p.vertices.map f)

/-- `Path.translate`. -/
def QPath.translate (m : JsMath) (v : QVect) (p : QPath) : Option QPath :=
  p.callMap m (fun u => u.add v)

/-- `Path.rotateZ` about `origin` (src/cube.js 239-241):
`translate (-origin)`, rotate every vertex, `translate origin` — each of
the three steps rebuilds the path through the constructor. -/
def QPath.rotateZ (m : JsMath) (theta : ℚ) (origin : QVect) (p : QPath) : Option QPath := do
  let p1 ← p.translate m (origin.multiply (-1))
  let p2 ← p1.callMap m (fun u => u.rotateZ m theta)
  p2.translate m origin

/-- One iteration of the `min`/`max` update in
`vectorSeesAllOthersOnTheSameHalfPlane` (src/cube.js 340-344):
`if (dot < min) min = dot; else if (dot > max) max = dot`. -/
def seesStep (mn mx d : ℚ) : ℚ × ℚ :=
  if d < mn then (d, mx) else if d > mx then (mn, d) else (mn, mx)

/-- The loop body of `vectorSeesAllOthersOnTheSameHalfPlane` with its
early exit `if (max !== 0 && min !== 0) return false`. -/
def seesAux (normal u : QVect) : List QVect → ℚ → ℚ → Bool
  | [], _, _ => true
  | w :: ws, mn, mx =>
    let d := normal.dot (u.cross w)
    let s := seesStep mn mx d
    if s.2 ≠ 0 ∧ s.1 ≠ 0 then false else seesAux normal u ws s.1 s.2

/-- `vectorSeesAllOthersOnTheSameHalfPlane u` (src/cube.js 335-350),
with both accumulators starting at `0`. -/
def vectorSees (normal u : QVect) (vects : List QVect) : Bool :=
  seesAux normal u vects 0 0

/-- `Collisions.isPointInPath` (src/cube.js 330-355): translate the path
by `-v` (which rebuilds it, and can fail), then the point is strictly
inside iff no translated vertex sees all the others on one half-plane.
The dot products use the *original* path's normal, as in the source. -/
def isPointInQPath (m : JsMath) (v : QVect) (path : QPath) : Option Bool := do
  let t ← path.translate m (v.multiply (-1))
  let vects := t.vertices
  pure (! vects.any (fun u => vectorSees path.normal u vects))

/-- The numeric configuration fields of `GameSettings`
(src/cube.js 432-495) consumed by the simulation core. -/
structure GameSettings where
  playerSize : ℚ
  playerInitialPosition : QVect
  playerAcceleration : QVect
  playerJumpVelocity : QVect
  gameInitialPosition : ℚ
  gameInitialVelocity : ℚ
  gameAcceleration : ℚ
  gameTimeBetweenPowerUps : ℚ
  gameDeathZone : ℚ
  gameWalkZone : ℚ
  gameWidth : ℚ
  rendererTilesOnScreen : ℤ
  rendererFallingAnimationDuration : ℚ
deriving DecidableEq, Repr

/-- The concrete values assigned in the `GameSettings` constructor
(src/cube.js 447-491), with the decimal literals read exactly. -/
def defaultSettings : GameSettings where
  playerSize := 1 / 2
  playerInitialPosition := ⟨3 / 2, 3 / 2, 0⟩
  playerAcceleration := ⟨0, 0, -30⟩
  playerJumpVelocity := ⟨0, 0, 10⟩
  gameInitialPosition := -5 * SQRT2
  gameInitialVelocity := 1 * SQRT2
  gameAcceleration := (1 / 10) * SQRT2
  gameTimeBetweenPowerUps := 10
  gameDeathZone := 4
  gameWalkZone := 200
  gameWidth := 6
  rendererTilesOnScreen := 15
  rendererFallingAnimationDuration := 1 / 2

/-- The avatar state (class `Player`, src/cube.js 500-648). -/
structure Player where
  side : ℚ
  s : QVect
  position : QVect
  velocity : QVect
  acceleration : QVect
  orientationAngularVelocity : ℚ
  rotationAngularVelocity : ℚ
  inAirVelocity : ℚ
  level : ℕ
  levelSince : ℚ
  jumpVelocity : QVect
  orientation : ℚ
  rotation : ℚ
  inRotation : Bool
  inRotationSince : ℚ
  inAir : Bool
  inAirSince : ℚ
deriving DecidableEq, Repr

namespace Player

/-- The velocity recomputed by `Player._updateStats` (src/cube.js 622-628). -/
def statsVelocity (st : GameSettings) (level : ℕ) : ℚ :=
  st.gameTimeBetweenPowerUps * st.gameAcceleration * ((level : ℚ) + 2) + st.gameInitialVelocity

/-- `Player._updateStats`: refreshes the three speed-dependent fields. -/
def updateStats (st : GameSettings) (p : Player) : Player :=
  let velocity := statsVelocity st p.level
  { p with
    inAirVelocity := velocity
    rotationAngularVelocity := velocity / p.side * PI / 2
    orientationAngularVelocity := velocity / p.side * PI / 2 }

/-- The `Player` constructor (src/cube.js 504-537). -/
def init (st : GameSettings) : Player :=
  updateStats st
    { side := st.playerSize
      s := QVect.one.multiply st.playerSize
      position := st.playerInitialPosition
      velocity := QVect.zero
      acceleration := st.playerAcceleration
      orientationAngularVelocity := 0
      rotationAngularVelocity := 0
      inAirVelocity := 0
      level := 0
      levelSince := 0
      jumpVelocity := st.playerJumpVelocity
      orientation := 0
      rotation := 0
      inRotation := false
      inRotationSince := 0
      inAir := false
      inAirSince := 0 }

/-- `Player.setInAir`. -/
def setInAir (t : ℚ) (p : Player) : Player := { p with inAir := true, inAirSince := t }

/-- `Player.jump`: `setInAir` then take the configured jump velocity. -/
def jump (t : ℚ) (p : Player) : Player := { setInAir t p with velocity := p.jumpVelocity }

/-- `Player.land`. -/
def land (p : Player) : Player := { p with inAir := false, velocity := QVect.zero }

/-- `Player.resetAltitude`. -/
def resetAltitude (p : Player) : Player := { p with position := p.position.cloneXY }

/-- `Player.updateAltitude` (src/cube.js 567-570): closed-form altitude. -/
def updateAltitude (t : ℚ) (p : Player) : Player :=
  let airTime := t - p.inAirSince
  { p with position :=
      ⟨p.position.x, p.position.y, airTime * airTime * p.acceleration.z / 2 + airTime * p.velocity.z⟩ }

/-- `Player.flyTowards`. -/
def flyTowards (direction : QVect) (dt : ℚ) (p : Player) : Player :=
  { p with position := p.position.add (direction.multiply (p.inAirVelocity * dt)) }

/-- `Player.setOrientation`. -/
def setOrientation (theta : ℚ) (p : Player) : Player := { p with orientation := theta }

/-- `Player.beginRotation`. -/
def beginRotation (t : ℚ) (p : Player) : Player :=
  { p with inRotation := true, inRotationSince := t, rotation := 0 }

/-- `Player.updateRotation` (src/cube.js 599-602). -/
def updateRotation (t : ℚ) (p : Player) : Player :=
  { p with inRotation := true, rotation := (t - p.inRotationSince) * p.rotationAngularVelocity }

/-- `Player.endRotation` (src/cube.js 604-608): clear the turn and advance
the position by one side length in the current orientation. -/
def endRotation (m : JsMath) (p : Player) : Player :=
  { p with
    inRotation := false
    rotation := 0
    position := p.position.add ((QVect.mk p.side 0 0).rotateZ m p.orientation) }

/-- `Player.eatPowerUp`. -/
def eatPowerUp (st : GameSettings) (t : ℚ) (p : Player) : Player :=
  updateStats st { p with level := p.level + 1, levelSince := t }

/-- `Player.getCollisionPath` (src/cube.js 630-647): the mid-turn lens
quadrilateral or the grounded square, rotated by the current orientation
about the avatar's own half-side and translated to its position.  Fails
when a `Path` constructor along the way fails. -/
def getCollisionPath (m : JsMath) (p : Player) : Option QPath :=
  if p.inRotation then do
    let base ← mkQPath m
      [p.s.cloneX,
       (p.s.cloneX.multiply (SQRT2 / 2)).add (p.s.cloneY.multiply (1 / 2)),
       p.s.cloneXY,
       (p.s.cloneX.multiply SQRT2).add (p.s.cloneY.multiply (1 / 2))]
    let r ← base.rotateZ m p.orientation (p.s.multiply (1 / 2))
    r.translate m (p.position.substract (p.s.cloneXY.multiply (1 / 2)))
  else do
    let base ← mkQPath m [QVect.zero, p.s.cloneY, p.s.cloneXY, p.s.cloneX]
    let r ← base.rotateZ m p.orientation (p.s.multiply (1 / 2))
    r.translate m (p.position.substract (p.s.cloneXY.multiply (1 / 2)))

end Player

/-- Grid-cell classification (`GameCell`/`Tile`/`PowerUpTile`,
src/cube.js 653-682), as a tagged variant: `gameCell` is a bare cell
(nothing to walk on), `tile` is walkable, `powerUpTile` carries its
consumption state. -/
inductive Cell where
  | gameCell : Cell
  | tile : Cell
  | powerUpTile : (consumed : Bool) → (consumedSince : ℚ) → Cell
deriving DecidableEq, Repr

/-- The JavaScript `instanceof Tile` test (true for `Tile` and its
subclass `PowerUpTile`). -/
def Cell.isWalkable : Cell → Bool
  | Cell.gameCell => false
  | Cell.tile => true
  | Cell.powerUpTile _ _ => true

/-- One row of the sparse world: an association list from x to cell.
JavaScript object keys are unique; these lists keep at most one binding
per key through `assocSet`. -/
abbrev TileRow := List (ℤ × Cell)

/-- The sparse world `this.tiles`: an association list from y to row. -/
abbrev TileMap := List (ℤ × TileRow)

/-- Lookup in an association list (the JavaScript `k in o` / `o[k]`). -/
def assocGet {α : Type} (l : List (ℤ × α)) (k : ℤ) : Option α :=
  match l.find? (fun e => e.1 = k) with
  | none => none
  | some e => some e.2

/-- Update/insert a binding (`o[k] = v`). -/
def assocSet {α : Type} (l : List (ℤ × α)) (k : ℤ) (v : α) : List (ℤ × α) :=
  match l with
  | [] => [(k, v)]
  | e :: t => if e.1 = k then (k, v) :: t else e :: assocSet t k v

/-- Delete a binding (`delete o[k]`). -/
def assocDel {α : Type} (l : List (ℤ × α)) (k : ℤ) : List (ℤ × α) :=
  match l with
  | [] => []
  | e :: t => if e.1 = k then t else e :: assocDel t k

/-- Read the cell at `(x, y)`; `tiles[y][x]` with both `in` checks. -/
def cellAt (tiles : TileMap) (x y : ℤ) : Option Cell :=
  match assocGet tiles y with
  | none => none
  | some row => assocGet row x

/-- Write the cell at `(x, y)` into an existing (or fresh) row. -/
def setCellAt (tiles : TileMap) (x y : ℤ) (c : Cell) : TileMap :=
  match assocGet tiles y with
  | none => assocSet tiles y [(x, c)]
  | some row => assocSet tiles y (assocSet row x c)

/-- The world generator abstracted to its two classification predicates
`isPowerUp` and `isTile` (class `WorldGenerator`, src/cube.js 687-722).
Their numeric bodies evaluate trigonometric series of a random seed in
floating point; the windowing claims hold for every classifier, so the
generator is carried as this pair of functions. -/
structure Generator where
  isPowerUp : ℤ → ℤ → Bool
  isTile : ℤ → ℤ → Bool

/-- The cell created for a fresh coordinate in `Game.generateWorld`
(src/cube.js 783-789): power-up, else walkable tile, else bare cell. -/
def classifyCell (gen : Generator) (x y : ℤ) : Cell :=
  if gen.isPowerUp x y then Cell.powerUpTile false 0
  else if gen.isTile x y then Cell.tile
  else Cell.gameCell

/-- The integer range `[a, b]` of a JavaScript `for` loop (empty when
`b < a`). -/
def intRange (a b : ℤ) : List ℤ :=
  (List.range (b + 1 - a).toNat).map (fun (i : ℕ) => a + (i : ℤ))

/-- The windowed world state mutated by `Game.generateWorld`: the sparse
tile map and the two viewport boundaries. -/
structure WorldSt where
  tiles : TileMap
  viewportStart : ℤ
  viewportEnd : ℤ
deriving DecidableEq, Repr

/-- The inner `x` loop body of `Game.generateWorld` (src/cube.js
779-789): skip coordinates inside the old `[·, viewportEnd)²` corner or
already present, classify the rest. -/
def fillCell (gen : Generator) (ve y : ℤ) (m : TileMap) (x : ℤ) : TileMap :=
  if (x < ve ∧ y < ve) ∨ (cellAt m x y).isSome then m
  else setCellAt m x y (classifyCell gen x y)

/-- The outer `y` loop body of `Game.generateWorld` (src/cube.js
775-791): create a fresh row object when `y` is absent, then run the
inner loop over `[start, stop]`. -/
def fillRow (gen : Generator) (ve start stop : ℤ) (m : TileMap) (y : ℤ) : TileMap :=
  let m1 := if (assocGet m y).isSome then m else assocSet m y []
  (intRange start stop).foldl (fillCell gen ve y) m1

/-- The whole materialization sweep of `Game.generateWorld` over
`[start, stop]²`. -/
def fillRegion (gen : Generator) (ve start stop : ℤ) (m : TileMap) : TileMap :=
  (intRange start stop).foldl (fillRow gen ve start stop) m

/-- `Game.generateWorld(start, stop)` (src/cube.js 767-796):
clamp `start` to `0`; when the window advances, delete the *rows*
`viewportStart ≤ y < start`; when `stop` grows past `viewportEnd`,
sweep `[start, stop]²` with the skip rule of `fillCell`; finally store
the new boundaries. -/
def generateWorld (gen : Generator) (start stop : ℤ) (w : WorldSt) : WorldSt :=
  let start := max 0 start
  let tiles1 :=
    if start > w.viewportStart then
      (intRange w.viewportStart (start - 1)).foldl assocDel w.tiles
    else w.tiles
  let tiles2 :=
    if stop > w.viewportEnd then fillRegion gen w.viewportEnd start stop tiles1
    else tiles1
  { tiles := tiles2, viewportStart := start, viewportEnd := stop }

/-- The live input record (`GameInputs`, src/cube.js 724-729). -/
structure GameInputs where
  direction : QVect
  jump : Bool
deriving DecidableEq, Repr

/-- The game state (class `Game`, src/cube.js 734-991).  The world
fields (`tiles`, `viewportStart`, `viewportEnd`) are grouped in `world`. -/
structure Game where
  t : ℚ
  score : ℤ
  gameOver : Bool
  gameOverAt : ℚ
  world : WorldSt
  cameraPosition : ℚ
  player : Player
  jumpQueued : Bool
deriving DecidableEq, Repr

/-- The hand-seeded world of the `Game` constructor (src/cube.js 748,
753-754) before the initial window is materialized: one walkable tile at
`(1, 1)`, boundaries at `0`. -/
def seededWorld : WorldSt :=
  { tiles := [(1, [(1, Cell.tile)])], viewportStart := 0, viewportEnd := 0 }

/-- The `Game` constructor (src/cube.js 739-760): seed the hand-placed
walkable tile at `(1, 1)`, then materialize the initial window
`[0, rendererTilesOnScreen]`. -/
def Game.init (gen : Generator) (st : GameSettings) : Game where
  t := 0
  score := 0
  gameOver := false
  gameOverAt := 0
  world := generateWorld gen 0 st.rendererTilesOnScreen seededWorld
  cameraPosition := st.gameInitialPosition
  player := Player.init st
  jumpQueued := false

/-- `Game.getCameraPosition` (src/cube.js 982-990).  The source's
self-call `getCameraPosition(this.gameOverAt)` always takes the
closed-form branch (`t ≤ gameOverAt` holds there), so it is inlined. -/
def Game.cameraAt (st : GameSettings) (g : Game) (t : ℚ) : ℚ :=
  let base := fun (u : ℚ) =>
    st.gameAcceleration / 2 * u * u + st.gameInitialVelocity * u + st.gameInitialPosition
  if ¬ g.gameOver ∨ t ≤ g.gameOverAt then base t
  else
    let v := st.gameAcceleration * g.gameOverAt + st.gameInitialVelocity
    let a := if st.rendererFallingAnimationDuration > 0 then
        -v / st.rendererFallingAnimationDuration else 0
    let dt := min st.rendererFallingAnimationDuration (t - g.gameOverAt)
    base g.gameOverAt + a / 2 * dt * dt + v * dt

/-- The corner-selection `reduce` of `Game.playerIsOnTheseTiles`
(src/cube.js 828): among the four unit-square corners of cell `(x, y)`,
keep the one strictly closer to the player position (ties keep the later
corner, as the JavaScript ternary does). -/
def closestCorner (pos : QVect) (x y : ℤ) : QVect :=
  let pick := fun (u v : QVect) =>
    if (pos.substract u).lengthSquared < (pos.substract v).lengthSquared then u else v
  pick (pick (pick ⟨(x : ℚ), (y : ℚ), 0⟩ ⟨(x : ℚ) + 1, (y : ℚ), 0⟩) ⟨(x : ℚ), (y : ℚ) + 1, 0⟩)
    ⟨(x : ℚ) + 1, (y : ℚ) + 1, 0⟩

/-- Accumulator of the first loop of `playerIsOnTheseTiles`:
`(left, right, bottom, top, theseTiles)`.  Collected tiles are keyed by
their coordinates; the source deduplicates by object identity, and the
map holds exactly one cell object per coordinate. -/
def tilesVertexFold (tiles : TileMap) (acc : ℤ × ℤ × ℤ × ℤ × List (ℤ × ℤ × Cell))
    (vertex : QVect) : ℤ × ℤ × ℤ × ℤ × List (ℤ × ℤ × Cell) :=
  let x := ⌊vertex.x⌋
  let y := ⌊vertex.y⌋
  let these :=
    match cellAt tiles x y with
    | some c =>
      if c.isWalkable ∧ ¬ acc.2.2.2.2.any (fun e => e.1 = x ∧ e.2.1 = y) then
        acc.2.2.2.2 ++ [(x, y, c)]
      else acc.2.2.2.2
    | none => acc.2.2.2.2
  (min acc.1 x, max acc.2.1 x, min acc.2.2.1 y, max acc.2.2.2.1 y, these)

/-- `Game.playerIsOnTheseTiles` (src/cube.js 802-838): compute the
collision path, scan its vertices (bounding box plus direct hits), then
scan the bounding box testing each walkable cell's closest corner with
`isPointInPath`.  Inside the box scan the translated path cannot fail
(translation preserves the constructor's cross product exactly over
`ℚ`), so a failed containment test reads as `false`. -/
def playerIsOnTheseTiles (m : JsMath) (tiles : TileMap) (p : Player) :
    Option (List (ℤ × ℤ × Cell)) := do
  let playerPath ← p.getCollisionPath m
  match playerPath.vertices with
  | [] => pure []
  | v0 :: _ =>
    let a0 := (⌊v0.x⌋, ⌊v0.x⌋, ⌊v0.y⌋, ⌊v0.y⌋, ([] : List (ℤ × ℤ × Cell)))
    let a1 := playerPath.vertices.foldl (tilesVertexFold tiles) a0
    let (left, right, bottom, top, these1) := a1
    pure ((intRange bottom top).foldl (fun these y =>
      (intRange left right).foldl (fun these x =>
        match cellAt tiles x y with
        | some c =>
          if c.isWalkable then
            let corner := closestCorner p.position x y
            if (¬ these.any (fun e => e.1 = x ∧ e.2.1 = y)) ∧
                (isPointInQPath m corner playerPath).getD false then
              these ++ [(x, y, c)]
            else these
          else these
        | none => these) these) these1)

/-- One iteration of the power-up loop of `Game.update` (src/cube.js
919-924): an overlapped, unconsumed power-up raises the level and is
marked consumed in place. -/
def consumeStep (st : GameSettings) (t1 : ℚ) (g2 : Game) (e : ℤ × ℤ × Cell) : Game :=
  match e.2.2 with
  | Cell.powerUpTile false _ =>
    { g2 with
      player := g2.player.eatPowerUp st t1
      world := { g2.world with
        tiles := setCellAt g2.world.tiles e.1 e.2.1 (Cell.powerUpTile true t1) } }
  | _ => g2

/-- The collision block of `Game.update` (src/cube.js 912-930), entered
with `this.t` and `this.player` already advanced to the sub-step end
`t1`: when the altitude is exactly zero, land on any supporting tiles
(consuming overlapped unconsumed power-ups unless mid-turn), or start
free fall when no tile supports a non-airborne player. -/
def collisionStep (m : JsMath) (st : GameSettings) (t1 : ℚ) (g : Game) : Option Game :=
  if g.player.position.z = 0 then
    match playerIsOnTheseTiles m g.world.tiles g.player with
    | none => none
    | some ts =>
      if ts ≠ [] then
        let g1 := { g with player := g.player.land }
        if ¬ g1.player.inRotation then some (ts.foldl (consumeStep st t1) g1)
        else some g1
      else
        if ¬ g.player.inAir then some { g with player := g.player.setInAir t1 } else some g
  else some g

/-- The input-examination block of `Game.update` (src/cube.js 932-940):
with a jump request asserted or queued, a grounded non-turning player
jumps (clearing the queue); a grounded turning player only queues; an
airborne player is left untouched. -/
def examineInputsStep (t1 : ℚ) (jmp jumpQueued : Bool) (p : Player) : Player × Bool :=
  if jmp ∨ jumpQueued then
    if ¬ p.inAir ∧ ¬ p.inRotation then (p.jump t1, false)
    else if ¬ p.inAir then (p, true)
    else (p, jumpQueued)
  else (p, jumpQueued)

/-- The orientation block of `Game.update` (src/cube.js 942-956): when a
direction is held and no quarter-turn is in progress, snap to the target
angle (and begin a quarter-turn when grounded) if aligned within
`EPSILON`, otherwise rotate toward it by `dt`; in either case drift the
non-buried avatar along the held direction. -/
def changeOrientationStep (t1 : ℚ) (direction : QVect) (angle : ℚ)
    (orientationClockwise : Bool) (dt : ℚ) (p : Player) : Player :=
  if direction.lengthSquared > 0 ∧ ¬ p.inRotation then
    let p1 :=
      if |jsMod (angle - p.orientation) (PI / 2)| < EPSILON then
        let p2 := p.setOrientation angle
        if ¬ p2.inAir then p2.beginRotation t1 else p2
      else
        p.setOrientation (p.orientation +
          (if orientationClockwise then (-1 : ℚ) else 1) * dt * p.orientationAngularVelocity)
    if p1.position.z ≥ 0 then p1.flyTowards direction dt else p1
  else p

/-- The closing block of `Game.update` (src/cube.js 958-971): recompute
the camera from the (not yet updated) game-over state, raise the score
to the floored diagonal progress, and fire the terminal game-over
transition when the avatar trails the camera by more than the death
zone or has sunk below `-EPSILON`. -/
def finalizeStep (st : GameSettings) (t1 : ℚ) (g : Game) : Game :=
  let cam := Game.cameraAt st g t1
  let distance := (QVect.mk (SQRT2 / 2) (SQRT2 / 2) 0).dot g.player.position
  let score1 := max g.score
    ⌊distance - (QVect.mk (SQRT2 / 2) (SQRT2 / 2) 0).dot st.playerInitialPosition⌋
  if ¬ g.gameOver ∧ (distance < cam - st.gameDeathZone ∨ g.player.position.z < -EPSILON) then
    { g with cameraPosition := cam, score := score1, gameOver := true, gameOverAt := t1 }
  else
    { g with cameraPosition := cam, score := score1 }

/-- One sub-step of `Game.update` (src/cube.js 850-971) after the held
direction has been normalized: gather the candidate event horizons
`dts`, advance by their minimum `dt`, resolve the events whose horizon
was hit, then run the collision, input, orientation and closing blocks.
Returns the new state together with the consumed `dt`. -/
def updateCore (m : JsMath) (st : GameSettings) (inputs : GameInputs) (direction : QVect)
    (g : Game) (elapsedTime : ℚ) : Option (Game × ℚ) :=
  let p := g.player
  let dtRotation := if p.inRotation then (PI / 2 - p.rotation) / p.rotationAngularVelocity else 0
  let dtFalling :=
    if p.inAir then -2 * p.velocity.z / p.acceleration.z - (g.t - p.inAirSince) else 0
  let hasDir := direction.lengthSquared > 0
  let angle := if hasDir then m.atan2 direction.y direction.x else 0
  let diff := |jsMod (angle - p.orientation) (PI / 2)|
  let orientPush := hasDir ∧ ¬ p.inRotation ∧ diff > EPSILON
  let dtClockwise := diff / p.orientationAngularVelocity
  let dtCounterclockwise := (PI / 2 - diff) / p.orientationAngularVelocity
  let dtOrientation :=
    if orientPush then
      (if dtCounterclockwise < dtClockwise then dtCounterclockwise else dtClockwise)
    else 0
  let orientationClockwise :=
    if orientPush then
      xor (decide (angle < p.orientation)) (decide (dtCounterclockwise < dtClockwise))
    else false
  let dts := [elapsedTime]
    ++ (if p.inRotation then [dtRotation] else [])
    ++ (if p.inAir ∧ dtFalling > EPSILON then [dtFalling] else [])
    ++ (if orientPush then [dtOrientation] else [])
  let dt := listMin dts
  let t1 := g.t + dt
  let p1 := if dt = dtRotation then p.endRotation m
    else if p.inRotation then p.updateRotation t1 else p
  let p2 := if dt = dtFalling then p1.resetAltitude
    else if p1.inAir then p1.updateAltitude t1 else p1
  let p3 := if dt = dtOrientation then p2.setOrientation angle else p2
  let g1 : Game := { g with t := t1, player := p3 }
  match collisionStep m st t1 g1 with
  | none => none
  | some g2 =>
    let pj := examineInputsStep t1 inputs.jump g.jumpQueued g2.player
    let p5 := changeOrientationStep t1 direction angle orientationClockwise dt pj.1
    let g3 := finalizeStep st t1 { g2 with player := p5, jumpQueued := pj.2 }
    some (g3, dt)

/-- One sub-step of `Game.update` (src/cube.js 844-971, everything
before the recursive re-invocation): normalize the held direction (the
only fallible step, modelling the thrown exception as `none`), then run
`updateCore`. -/
def updateOnce (m : JsMath) (st : GameSettings) (inputs : GameInputs) (g : Game)
    (elapsedTime : ℚ) : Option (Game × ℚ) := do
  let direction ←
    if inputs.direction.lengthSquared > 0 then inputs.direction.normalize m
    else some inputs.direction
  updateCore m st inputs direction g elapsedTime

/-- `Game.update(elapsedTime)` (src/cube.js 844-977) with an explicit
recursion budget: run a sub-step, and re-invoke on the leftover time
while it exceeds `EPSILON`.  `none` is an exhausted budget (the value
carries no information about the source, whose recursion is unbounded);
`some none` is a thrown exception; `some (some g)` is normal return. -/
def updateFuel (m : JsMath) (st : GameSettings) (inputs : GameInputs) :
    ℕ → Game → ℚ → Option (Option Game)
  | 0, _, _ => none
  | n + 1, g, elapsedTime =>
    match updateOnce m st inputs g elapsedTime with
    | none => some none
    | some (g1, dt) =>
      if elapsedTime - dt > EPSILON then updateFuel m st inputs n g1 (elapsedTime - dt)
      else some (some g1)

/-! ## Exact-real embedding of the vector and generator mathematics

The claims about `normalize`, `isPointInPath` and the power-up placement
formula speak about exact arithmetic; they are settled over `ℝ`, with
the source's `x ** 0.5` read as the real square root. -/

/-- Three-dimensional vector over `ℝ` (class `Vect`, src/cube.js 17-146). -/
structure Vect where
  x : ℝ
  y : ℝ
  z : ℝ

namespace Vect

/-- `Vect.ZERO`. -/
def vzero : Vect := ⟨0, 0, 0⟩

/-- `Vect.add`. -/
def add (v w : Vect) : Vect := ⟨v.x + w.x, v.y + w.y, v.z + w.z⟩

/-- `Vect.multiply`. -/
def multiply (v : Vect) (lambda : ℝ) : Vect := ⟨v.x * lambda, v.y * lambda, v.z * lambda⟩

/-- `Vect.substract`. -/
def substract (v w : Vect) : Vect := v.add (w.multiply (-1))

/-- `Vect.dot`. -/
def dot (v w : Vect) : ℝ := v.x * w.x + v.y * w.y + v.z * w.z

/-- `Vect.cross`. -/
def cross (v w : Vect) : Vect :=
  ⟨v.y * w.z - v.z * w.y, v.z * w.x - v.x * w.z, v.x * w.y - v.y * w.x⟩

/-- `Vect.lengthSquared`. -/
def lengthSquared (v : Vect) : ℝ := v.dot v

/-- `Vect.length`: `lengthSquared ** 0.5`. -/
noncomputable def length (v : Vect) : ℝ := Real.sqrt v.lengthSquared

/-- `Vect.normalize` (src/cube.js 43-49): fails exactly when the length
is zero, otherwise scales by the reciprocal length. -/
noncomputable def normalize (v : Vect) : Option Vect :=
  if v.length = 0 then none else some (v.multiply (1 / v.length))

end Vect

/-- Planar polygon over `ℝ` (class `Path`). -/
structure VPath where
  vertices : List Vect
  normal : Vect

/-- The `Path` constructor over `ℝ` (src/cube.js 193-202). -/
noncomputable def mkVPath (vects : List Vect) : Option VPath :=
  match vects with
  | v0 :: v1 :: v2 :: _ =>
    match ((v1.substract v0).cross (v2.substract v1)).normalize with
    | none => none
    | some n => some ⟨vects, n⟩
  | _ => none

/-- `Path.translate` over `ℝ` (rebuilds the path, recomputing its normal). -/
noncomputable def VPath.vtranslate (v : Vect) (p : VPath) : Option VPath :=
  mkVPath (p.vertices.map (fun u => u.add v))

/-- The `min`/`max` update of the half-plane scan, over `ℝ`. -/
noncomputable def seesStepR (mn mx d : ℝ) : ℝ × ℝ :=
  if d < mn then (d, mx) else if d > mx then (mn, d) else (mn, mx)

/-- The half-plane scan loop with its early exit, over `ℝ`. -/
noncomputable def seesAuxR (normal u : Vect) : List Vect → ℝ → ℝ → Bool
  | [], _, _ => true
  | w :: ws, mn, mx =>
    let d := normal.dot (u.cross w)
    let s := seesStepR mn mx d
    if s.2 ≠ 0 ∧ s.1 ≠ 0 then false else seesAuxR normal u ws s.1 s.2

/-- `vectorSeesAllOthersOnTheSameHalfPlane` over `ℝ`. -/
noncomputable def vectorSeesR (normal u : Vect) (vects : List Vect) : Bool :=
  seesAuxR normal u vects 0 0

/-- `Collisions.isPointInPath` over `ℝ` (src/cube.js 330-355). -/
noncomputable def isPointInVPath (v : Vect) (path : VPath) : Option Bool := do
  let t ← path.vtranslate (v.multiply (-1))
  let vects := t.vertices
  pure (! vects.any (fun u => vectorSeesR path.normal u vects))

/-- The constant `SQRT2` as a real number (still the rational literal of
line 10 of the source, not the irrational `√2`). -/
noncomputable def sqrt2R : ℝ := ((SQRT2 : ℚ) : ℝ)

/-- `settings.gameAcceleration` as a real number. -/
noncomputable def gameAccelerationR : ℝ := ((defaultSettings.gameAcceleration : ℚ) : ℝ)

/-- `settings.gameInitialVelocity` as a real number. -/
noncomputable def gameInitialVelocityR : ℝ := ((defaultSettings.gameInitialVelocity : ℚ) : ℝ)

/-- `settings.gameTimeBetweenPowerUps` as a real number. -/
noncomputable def gameTimeBetweenPowerUpsR : ℝ :=
  ((defaultSettings.gameTimeBetweenPowerUps : ℚ) : ℝ)

/-- The inner closed form `n` of `WorldGenerator.isPowerUp`
(src/cube.js 718): `n(x) = (-v0 + (v0·v0 + 2·a·x) ** 0.5) / (a·t0)`,
with the configured `a`, `v0`, `t0`. -/
noncomputable def genN (x : ℝ) : ℝ :=
  (-gameInitialVelocityR +
    Real.sqrt (gameInitialVelocityR * gameInitialVelocityR + 2 * gameAccelerationR * x)) /
    (gameAccelerationR * gameTimeBetweenPowerUpsR)

/-- `WorldGenerator.isPowerUp (x, y)` (src/cube.js 712-721) over exact
real arithmetic: on-diagonal, `x ≥ 1`, and the floor of `n` increments
between diagonal distance `(x-1)·√2` and `x·√2`. -/
def isPowerUpR (x y : ℤ) : Prop :=
  x = y ∧ 1 ≤ x ∧ ⌊genN (((x : ℝ) - 1) * sqrt2R)⌋ < ⌊genN ((x : ℝ) * sqrt2R)⌋

/-! ## C8: `normalize` fails exactly on zero length; otherwise unit result -/

/-- The squared length of a real vector is nonnegative. -/
theorem vect_lengthSquared_nonneg (v : Vect) : 0 ≤ v.lengthSquared := by
  have h : v.lengthSquared = v.x * v.x + v.y * v.y + v.z * v.z := rfl
  rw [h]
  have hx := mul_self_nonneg v.x
  have hy := mul_self_nonneg v.y
  have hz := mul_self_nonneg v.z
  linarith

/-- C8: `normalize` fails (raises the degenerate-vector error) exactly
when the vector's length is zero, and on every vector of nonzero length
it succeeds with a result of length exactly one, over real arithmetic. -/
theorem c8_normalize_exact :
    (∀ v : Vect, v.normalize = none ↔ v.length = 0) ∧
    (∀ v u : Vect, v.length ≠ 0 → v.normalize = some u → u.length = 1) := by
  constructor
  · intro v
    by_cases h : v.length = 0
    · simp [Vect.normalize, h]
    · simp [Vect.normalize, h]
  · intro v u hne hsome
    have hlsq : 0 ≤ v.lengthSquared := vect_lengthSquared_nonneg v
    have hsq : v.length ^ 2 = v.lengthSquared := Real.sq_sqrt hlsq
    have hu : u = v.multiply (1 / v.length) := by
      unfold Vect.normalize at hsome
      rw [if_neg hne] at hsome
      exact (Option.some.inj hsome).symm
    have hmul : (v.multiply (1 / v.length)).lengthSquared
        = (1 / v.length) ^ 2 * v.lengthSquared := by
      show (v.multiply (1 / v.length)).dot (v.multiply (1 / v.length))
        = (1 / v.length) ^ 2 * (v.dot v)
      simp only [Vect.multiply, Vect.dot]
      ring
    have hulsq : u.lengthSquared = 1 := by
      rw [hu, hmul, ← hsq]
      field_simp
    show Real.sqrt u.lengthSquared = 1
    rw [hulsq, Real.sqrt_one]

/-- Witness for C8 at the vector `(0, 0, 2)`. -/
theorem c8_normalize_exact_witness :
    (Vect.mk 0 0 2).length ≠ 0 ∧
    ∃ u, (Vect.mk 0 0 2).normalize = some u ∧ u.length = 1 := by
  have hlsq : (Vect.mk 0 0 2).lengthSquared = 4 := by
    show (0 : ℝ) * 0 + 0 * 0 + 2 * 2 = 4
    norm_num
  have hlen : (Vect.mk 0 0 2).length = 2 := by
    show Real.sqrt (Vect.mk 0 0 2).lengthSquared = 2
    rw [hlsq, show (4 : ℝ) = 2 ^ 2 by norm_num, Real.sqrt_sq (by norm_num : (0 : ℝ) ≤ 2)]
  have hne : (Vect.mk 0 0 2).length ≠ 0 := by rw [hlen]; norm_num
  have hsome : (Vect.mk 0 0 2).normalize
      = some ((Vect.mk 0 0 2).multiply (1 / (Vect.mk 0 0 2).length)) := by
    unfold Vect.normalize
    rw [if_neg hne]
  exact ⟨hne, _, hsome, c8_normalize_exact.2 _ _ hne hsome⟩

/-! ## C4: the point-in-path predicate -/

/-- The `Path` constructor stores the given vertex list unchanged. -/
theorem mkVPath_vertices {l : List Vect} {p : VPath} (h : mkVPath l = some p) :
    p.vertices = l := by
  match l, h with
  | v0 :: v1 :: v2 :: rest, h =>
    cases hn : ((v1.substract v0).cross (v2.substract v1)).normalize with
    | none => simp [mkVPath, hn] at h
    | some n =>
      simp only [mkVPath, hn] at h
      cases (Option.some.inj h)
      rfl

/-- When every scanned dot product is zero, the half-plane scan keeps
both accumulators at zero and returns `true`. -/
theorem seesAuxR_all_zero (normal u : Vect) (ws : List Vect)
    (h : ∀ w ∈ ws, normal.dot (u.cross w) = 0) : seesAuxR normal u ws 0 0 = true := by
  induction ws with
  | nil => rfl
  | cons w ws ih =>
    have hw : normal.dot (u.cross w) = 0 := h w (List.mem_cons_self w ws)
    have hrest : ∀ w' ∈ ws, normal.dot (u.cross w') = 0 :=
      fun w' hw' => h w' (List.mem_cons_of_mem w hw')
    unfold seesAuxR
    rw [hw]
    simp only [seesStepR, lt_irrefl, if_false, gt_iff_lt, if_neg (lt_irrefl (0 : ℝ))]
    simpa using ih hrest

/-- C4 (amended): on every path and point for which some translated
vertex `u` has the signed quantity `normal ⬝ (u × w)` equal to zero
against every translated vertex `w` (boundary/degenerate support, ties
included), `isPointInPath` answers `false` — ties favor "outside". -/
theorem c4_tie_outside (path : VPath) (p : Vect) (b : Bool)
    (hb : isPointInVPath p path = some b)
    (u : Vect) (hu : u ∈ path.vertices.map (fun w => w.add (p.multiply (-1))))
    (hzero : ∀ w ∈ path.vertices.map (fun w => w.add (p.multiply (-1))),
      path.normal.dot (u.cross w) = 0) :
    b = false := by
  unfold isPointInVPath at hb
  cases ht : path.vtranslate (p.multiply (-1)) with
  | none => rw [ht] at hb; exact absurd hb (by simp)
  | some t =>
    rw [ht] at hb
    simp only [Option.bind_eq_bind, Option.some_bind, Option.pure_def] at hb
    have hverts : t.vertices = path.vertices.map (fun w => w.add (p.multiply (-1))) :=
      mkVPath_vertices ht
    have hany : t.vertices.any (fun u' => vectorSeesR path.normal u' t.vertices) = true := by
      rw [hverts]
      refine List.any_eq_true.2 ⟨u, hu, ?_⟩
      exact seesAuxR_all_zero path.normal u _ hzero
    have hb2 := Option.some.inj hb
    rw [hany] at hb2
    exact hb2.symm

/-- The unit-square vertex list of the counterexample footprint, in the
winding order `(0,0), (1,0), (1,1), (0,1)`. -/
noncomputable def sqVertsR : List Vect := [⟨0, 0, 0⟩, ⟨1, 0, 0⟩, ⟨1, 1, 0⟩, ⟨0, 1, 0⟩]

/-- A point directly above the square's center, far off its plane. -/
noncomputable def pAboveR : Vect := ⟨1 / 2, 1 / 2, 5⟩

/-- `normalize (0, 0, 1) = (0, 0, 1)`. -/
theorem normalize_unitZ : (Vect.mk 0 0 1).normalize = some (Vect.mk 0 0 1) := by
  have hlen : (Vect.mk 0 0 1).length = 1 := by
    show Real.sqrt ((0 : ℝ) * 0 + 0 * 0 + 1 * 1) = 1
    rw [show (0 : ℝ) * 0 + 0 * 0 + 1 * 1 = 1 by norm_num, Real.sqrt_one]
  have hne : (Vect.mk 0 0 1).length ≠ 0 := by rw [hlen]; norm_num
  unfold Vect.normalize
  rw [if_neg hne, hlen]
  show some (Vect.mk (0 * (1 / 1)) (0 * (1 / 1)) (1 * (1 / 1))) = some (Vect.mk 0 0 1)
  norm_num

/-- Building a `Path` on any translate of the square vertex list
succeeds, with normal `(0, 0, 1)`. -/
theorem mkVPath_sq_translate (t : Vect) :
    mkVPath (sqVertsR.map (fun u => u.add t)) =
      some ⟨sqVertsR.map (fun u => u.add t), Vect.mk 0 0 1⟩ := by
  have hcross :
      (((Vect.mk 1 0 0).add t).substract ((Vect.mk 0 0 0).add t)).cross
        (((Vect.mk 1 1 0).add t).substract ((Vect.mk 1 0 0).add t)) = Vect.mk 0 0 1 := by
    simp only [Vect.add, Vect.substract, Vect.multiply, Vect.cross, Vect.mk.injEq]
    refine ⟨by ring, by ring, by ring⟩
  have hl : sqVertsR.map (fun u => u.add t) =
      (Vect.mk 0 0 0).add t :: (Vect.mk 1 0 0).add t ::
      (Vect.mk 1 1 0).add t :: [(Vect.mk 0 1 0).add t] := rfl
  rw [hl]
  simp only [mkVPath, hcross, normalize_unitZ]

/-- Evaluation: the off-plane point `pAboveR` is classified inside the
square footprint. -/
theorem c4_sq_inside_eval :
    isPointInVPath pAboveR ⟨sqVertsR, Vect.mk 0 0 1⟩ = some true := by
  unfold isPointInVPath VPath.vtranslate
  rw [show (⟨sqVertsR, Vect.mk 0 0 1⟩ : VPath).vertices = sqVertsR from rfl,
    mkVPath_sq_translate (pAboveR.multiply (-1))]
  norm_num [sqVertsR, pAboveR, List.any, vectorSeesR, seesAuxR, seesStepR,
    Vect.dot, Vect.cross, Vect.add, Vect.multiply]

/-- Building a `Path` on the square vertex list itself. -/
theorem mkVPath_sq : mkVPath sqVertsR = some ⟨sqVertsR, Vect.mk 0 0 1⟩ := by
  have hcross : ((Vect.mk 1 0 0).substract (Vect.mk 0 0 0)).cross
      ((Vect.mk 1 1 0).substract (Vect.mk 1 0 0)) = Vect.mk 0 0 1 := by
    simp only [Vect.substract, Vect.add, Vect.multiply, Vect.cross, Vect.mk.injEq]
    refine ⟨by ring, by ring, by ring⟩
  show mkVPath (Vect.mk 0 0 0 :: Vect.mk 1 0 0 :: Vect.mk 1 1 0 :: [Vect.mk 0 1 0]) = _
  simp only [mkVPath, hcross, normalize_unitZ]
  rfl

/-- Membership in the convex hull of a vertex list, written from the
spec's phrase "strictly inside the convex hull of F's vertices" as the
standard convex-combination condition (spec-side rendering, used only to
compare the code's answer against the hull). -/
def specConvexHullMem (vs : List Vect) (p : Vect) : Prop :=
  ∃ cs : List ℝ, cs.length = vs.length ∧ (∀ c ∈ cs, 0 ≤ c) ∧ cs.sum = 1 ∧
    (List.zip cs vs).foldl (fun acc cv => acc.add (cv.2.multiply cv.1)) Vect.vzero = p

/-- The point above the square is not in the convex hull of its
vertices (every convex combination stays in the plane `z = 0`). -/
theorem c4_not_in_hull : ¬ specConvexHullMem sqVertsR pAboveR := by
  rintro ⟨cs, hlen, hnn, hsum, hfold⟩
  have hlen4 : cs.length = 4 := by simpa [sqVertsR] using hlen
  rcases cs with _ | ⟨a, cs⟩
  · simp at hlen4
  rcases cs with _ | ⟨b, cs⟩
  · simp at hlen4
  rcases cs with _ | ⟨c, cs⟩
  · simp at hlen4
  rcases cs with _ | ⟨d, cs⟩
  · simp at hlen4
  rcases cs with _ | ⟨e, cs⟩
  swap
  · simp at hlen4
  have hz := congrArg Vect.z hfold
  simp [sqVertsR, pAboveR, Vect.vzero, Vect.add, Vect.multiply] at hz

/-- C4 (counterexample): the point `(1/2, 1/2, 5)` hovering far above
the unit square is not in the convex hull of the square's vertices, yet
`isPointInPath` classifies it as strictly inside — the predicate ignores
the component of the point normal to the footprint's plane, so it is
not an exact hull-membership test. -/
theorem c4_counterexample :
    (∃ sq : VPath, mkVPath sqVertsR = some sq ∧ isPointInVPath pAboveR sq = some true) ∧
    ¬ specConvexHullMem sqVertsR pAboveR :=
  ⟨⟨⟨sqVertsR, Vect.mk 0 0 1⟩, mkVPath_sq, c4_sq_inside_eval⟩, c4_not_in_hull⟩

/-- Evaluation: a vertex of the square (the translated vertex is the
zero vector, whose signed quantities all vanish) is classified outside. -/
theorem c4_sq_vertex_eval :
    isPointInVPath (Vect.mk 0 0 0) ⟨sqVertsR, Vect.mk 0 0 1⟩ = some false := by
  unfold isPointInVPath VPath.vtranslate
  rw [show (⟨sqVertsR, Vect.mk 0 0 1⟩ : VPath).vertices = sqVertsR from rfl,
    mkVPath_sq_translate ((Vect.mk 0 0 0).multiply (-1))]
  norm_num [sqVertsR, List.any, vectorSeesR, seesAuxR, seesStepR,
    Vect.dot, Vect.cross, Vect.add, Vect.multiply]

/-- Witness for C4 at the square footprint and the vertex `(0, 0, 0)`. -/
theorem c4_tie_outside_witness :
    ∃ b, isPointInVPath (Vect.mk 0 0 0) (VPath.mk sqVertsR (Vect.mk 0 0 1)) = some b ∧
      b = false := by
  refine ⟨false, c4_sq_vertex_eval, ?_⟩
  refine c4_tie_outside ⟨sqVertsR, Vect.mk 0 0 1⟩ (Vect.mk 0 0 0) false c4_sq_vertex_eval
    ((Vect.mk 0 0 0).add ((Vect.mk 0 0 0).multiply (-1))) ?_ ?_
  · simp [sqVertsR]
  · intro w _
    norm_num [Vect.dot, Vect.cross, Vect.add, Vect.multiply]

/-! ## C3: the power-up placement formula at the first diagonal cell -/

/-- The rational literal `SQRT2` is positive. -/
theorem sqrt2R_pos : 0 < sqrt2R := by
  unfold sqrt2R
  have h : (0 : ℚ) < SQRT2 := by norm_num [SQRT2]
  exact_mod_cast h

/-- `a = 0.1 · SQRT2` as a real. -/
theorem gameAccelerationR_eq : gameAccelerationR = sqrt2R / 10 := by
  simp only [gameAccelerationR, defaultSettings, sqrt2R]
  push_cast
  ring

/-- `v0 = 1.0 · SQRT2` as a real. -/
theorem gameInitialVelocityR_eq : gameInitialVelocityR = sqrt2R := by
  simp only [gameInitialVelocityR, defaultSettings, sqrt2R]
  push_cast
  ring

/-- `t0 = 10` as a real. -/
theorem gameTimeBetweenPowerUpsR_eq : gameTimeBetweenPowerUpsR = 10 := by
  simp only [gameTimeBetweenPowerUpsR, defaultSettings]
  norm_num

/-- `n(0) = 0` exactly: the square root of `v0 · v0` is `v0`. -/
theorem genN_zero_floor : ⌊genN ((1 - 1) * sqrt2R)⌋ = 0 := by
  have h0 : ((1 : ℝ) - 1) * sqrt2R = 0 := by ring
  rw [h0]
  unfold genN
  have harg : gameInitialVelocityR * gameInitialVelocityR + 2 * gameAccelerationR * 0
      = sqrt2R * sqrt2R := by rw [gameInitialVelocityR_eq]; ring
  rw [harg, Real.sqrt_mul_self (le_of_lt sqrt2R_pos), gameInitialVelocityR_eq]
  simp

/-- `n(1 · SQRT2)` in closed form: `√(6/5) - 1`. -/
theorem genN_one : genN (1 * sqrt2R) = Real.sqrt (6 / 5) - 1 := by
  unfold genN
  have harg : gameInitialVelocityR * gameInitialVelocityR + 2 * gameAccelerationR * (1 * sqrt2R)
      = (sqrt2R * sqrt2R) * (6 / 5) := by
    rw [gameInitialVelocityR_eq, gameAccelerationR_eq]; ring
  have hden : gameAccelerationR * gameTimeBetweenPowerUpsR = sqrt2R := by
    rw [gameAccelerationR_eq, gameTimeBetweenPowerUpsR_eq]; ring
  rw [harg, Real.sqrt_mul (mul_self_nonneg sqrt2R) _,
    Real.sqrt_mul_self (le_of_lt sqrt2R_pos), hden, gameInitialVelocityR_eq]
  have hs := sqrt2R_pos.ne'
  field_simp
  ring

/-- `⌊n(1 · SQRT2)⌋ = 0`: the value `√(6/5) - 1` lies in `[0, 1)`. -/
theorem genN_one_floor : ⌊genN (1 * sqrt2R)⌋ = 0 := by
  rw [genN_one]
  have h1 : 1 ≤ Real.sqrt (6 / 5) := Real.one_le_sqrt.2 (by norm_num)
  have h2 : Real.sqrt (6 / 5) < 2 := by
    rw [Real.sqrt_lt' (by norm_num : (0 : ℝ) < 2)]
    norm_num
  rw [Int.floor_eq_zero_iff]
  exact Set.mem_Ico.2 ⟨by linarith, by linarith⟩

/-- C3 (counterexample): with the configured `a = 0.1·SQRT2`,
`v0 = 1.0·SQRT2`, `t0 = 10`, the values `n(1·SQRT2)` and `n(0)` have the
*same* floor (both `0`, since `n(0) = 0` and `n(1·SQRT2) = √(6/5) - 1 < 1`),
and `isPowerUp(1,1)` returns `false`. -/
theorem c3_counterexample :
    ⌊genN (1 * sqrt2R)⌋ = ⌊genN ((1 - 1) * sqrt2R)⌋ ∧ ¬ isPowerUpR 1 1 := by
  refine ⟨by rw [genN_one_floor, genN_zero_floor], ?_⟩
  rintro ⟨-, -, hlt⟩
  rw [show (((1 : ℤ) : ℝ) - 1) * sqrt2R = (1 - 1) * sqrt2R by push_cast; ring,
    show ((1 : ℤ) : ℝ) * sqrt2R = 1 * sqrt2R by push_cast; ring,
    genN_zero_floor, genN_one_floor] at hlt
  exact absurd hlt (lt_irrefl 0)

/-- `n(x · SQRT2)` in closed form for any `x`: `√(1 + x/5) - 1`. -/
theorem genN_mul (x : ℝ) : genN (x * sqrt2R) = Real.sqrt (1 + x / 5) - 1 := by
  unfold genN
  have harg : gameInitialVelocityR * gameInitialVelocityR + 2 * gameAccelerationR * (x * sqrt2R)
      = (sqrt2R * sqrt2R) * (1 + x / 5) := by
    rw [gameInitialVelocityR_eq, gameAccelerationR_eq]; ring
  have hden : gameAccelerationR * gameTimeBetweenPowerUpsR = sqrt2R := by
    rw [gameAccelerationR_eq, gameTimeBetweenPowerUpsR_eq]; ring
  rw [harg, Real.sqrt_mul (mul_self_nonneg sqrt2R) _,
    Real.sqrt_mul_self (le_of_lt sqrt2R_pos), hden, gameInitialVelocityR_eq]
  have hs := sqrt2R_pos.ne'
  field_simp
  ring

/-- `⌊n(14 · SQRT2)⌋ = 0`. -/
theorem genN_fourteen_floor : ⌊genN (14 * sqrt2R)⌋ = 0 := by
  rw [genN_mul]
  have h1 : 1 ≤ Real.sqrt (1 + 14 / 5) := Real.one_le_sqrt.2 (by norm_num)
  have h2 : Real.sqrt (1 + 14 / 5) < 2 := by
    rw [Real.sqrt_lt' (by norm_num : (0 : ℝ) < 2)]
    norm_num
  rw [Int.floor_eq_zero_iff]
  exact Set.mem_Ico.2 ⟨by linarith, by linarith⟩

/-- `⌊n(15 · SQRT2)⌋ = 1`. -/
theorem genN_fifteen_floor : ⌊genN (15 * sqrt2R)⌋ = 1 := by
  rw [genN_mul, show (1 + 15 / 5 : ℝ) = 2 ^ 2 by norm_num,
    Real.sqrt_sq (by norm_num : (0 : ℝ) ≤ 2)]
  norm_num

/-- C3 (amended): under the configured constants the two floors are both
zero, so `isPowerUp(1,1)` returns `false`; the first floor increment —
hence the first diagonal power-up — happens at `x = 15`. -/
theorem c3_amended :
    ⌊genN (1 * sqrt2R)⌋ = 0 ∧ ⌊genN ((1 - 1) * sqrt2R)⌋ = 0 ∧
    ¬ isPowerUpR 1 1 ∧ isPowerUpR 15 15 := by
  refine ⟨genN_one_floor, genN_zero_floor, ?_, ?_⟩
  · rintro ⟨-, -, hlt⟩
    rw [show (((1 : ℤ) : ℝ) - 1) * sqrt2R = (1 - 1) * sqrt2R by push_cast; ring,
      show ((1 : ℤ) : ℝ) * sqrt2R = 1 * sqrt2R by push_cast; ring,
      genN_zero_floor, genN_one_floor] at hlt
    exact absurd hlt (lt_irrefl 0)
  · refine ⟨rfl, by norm_num, ?_⟩
    rw [show (((15 : ℤ) : ℝ) - 1) * sqrt2R = 14 * sqrt2R by push_cast; ring,
      show ((15 : ℤ) : ℝ) * sqrt2R = 15 * sqrt2R by push_cast; ring,
      genN_fourteen_floor, genN_fifteen_floor]
    norm_num

/-! ## Lemmas about the sparse association maps -/

/-- JavaScript object keys are unique; the reachable tile maps keep one
binding per key. -/
def keysNodup {α : Type} (l : List (ℤ × α)) : Prop := (l.map Prod.fst).Nodup

/-- Lookup after writing the same key. -/
theorem assocGet_set_self {α : Type} (l : List (ℤ × α)) (k : ℤ) (v : α) :
    assocGet (assocSet l k v) k = some v := by
  induction l with
  | nil => simp [assocSet, assocGet]
  | cons e t ih =>
    by_cases h : e.1 = k
    · simp [assocSet, h, assocGet]
    · simp only [assocSet, if_neg h]
      rw [show assocGet (e :: assocSet t k v) k = assocGet (assocSet t k v) k from by
        simp [assocGet, List.find?, h]]
      exact ih

/-- Lookup after writing a different key. -/
theorem assocGet_set_ne {α : Type} (l : List (ℤ × α)) (k k' : ℤ) (v : α) (h : k' ≠ k) :
    assocGet (assocSet l k v) k' = assocGet l k' := by
  induction l with
  | nil => simp [assocSet, assocGet, List.find?, Ne.symm h]
  | cons e t ih =>
    by_cases he : e.1 = k
    · subst he
      simp [assocSet, assocGet, List.find?, Ne.symm h, h]
    · simp only [assocSet, if_neg he]
      by_cases he' : e.1 = k'
      · simp [assocGet, List.find?, he']
      · simp only [assocGet, List.find?, he'] at *
        simpa [assocGet, List.find?, he', decide_eq_true_eq] using ih

/-- Lookup after deleting a different key. -/
theorem assocGet_del_ne {α : Type} (l : List (ℤ × α)) (k k' : ℤ) (h : k' ≠ k) :
    assocGet (assocDel l k) k' = assocGet l k' := by
  induction l with
  | nil => rfl
  | cons e t ih =>
    by_cases he : e.1 = k
    · subst he
      simp [assocDel, assocGet, List.find?, Ne.symm h]
    · by_cases he' : e.1 = k'
      · simp [assocDel, he, assocGet, List.find?, he', h]
      · simp only [assocDel, if_neg he]
        simpa [assocGet, List.find?, he'] using ih

/-- Deleting an absent key keeps it absent. -/
theorem assocGet_del_none {α : Type} (l : List (ℤ × α)) (k k' : ℤ)
    (h : assocGet l k' = none) : assocGet (assocDel l k) k' = none := by
  induction l with
  | nil => rfl
  | cons e t ih =>
    by_cases he' : e.1 = k'
    · simp [assocGet, List.find?, he'] at h
    · have ht : assocGet t k' = none := by
        simpa [assocGet, List.find?, he'] using h
      by_cases he : e.1 = k
      · simpa [assocDel, he, assocGet, List.find?, he'] using ht
      · simp only [assocDel, if_neg he]
        simpa [assocGet, List.find?, he'] using ih ht

/-- With unique keys, deletion removes the key. -/
theorem assocGet_del_self {α : Type} (l : List (ℤ × α)) (k : ℤ) (hn : keysNodup l) :
    assocGet (assocDel l k) k = none := by
  induction l with
  | nil => rfl
  | cons e t ih =>
    rw [keysNodup, List.map_cons, List.nodup_cons] at hn
    by_cases he : e.1 = k
    · subst he
      simp only [assocDel, if_pos rfl]
      cases hfind : assocGet t e.1 with
      | none => exact hfind
      | some v =>
        exfalso
        have hmem : e.1 ∈ t.map Prod.fst := by
          unfold assocGet at hfind
          cases hf : List.find? (fun en => en.1 = e.1) t with
          | none => rw [hf] at hfind; simp at hfind
          | some en =>
            have := List.find?_some hf
            have hmem := List.mem_of_find?_eq_some hf
            simp only [decide_eq_true_eq] at this
            exact this ▸ List.mem_map_of_mem Prod.fst hmem
        exact hn.1 hmem
    · simp only [assocDel, if_neg he]
      rw [show assocGet (e :: assocDel t k) k = assocGet (assocDel t k) k from by
        simp [assocGet, List.find?, he]]
      exact ih hn.2

/-- Every element of `assocSet l k v` has key `k` or a key of `l`. -/
theorem assocSet_key_mem {α : Type} (k : ℤ) (v : α) (x : ℤ × α) :
    ∀ t : List (ℤ × α), x ∈ assocSet t k v → x.1 = k ∨ x.1 ∈ t.map Prod.fst := by
  intro t
  induction t with
  | nil =>
    intro hx
    simp [assocSet] at hx
    simp [hx]
  | cons f s ihs =>
    intro hx
    by_cases hf : f.1 = k
    · simp only [assocSet, if_pos hf] at hx
      rw [List.mem_cons] at hx
      rcases hx with hx | hx
      · simp [hx]
      · right; exact List.mem_map_of_mem Prod.fst (List.mem_cons_of_mem f hx)
    · simp only [assocSet, if_neg hf] at hx
      rw [List.mem_cons] at hx
      rcases hx with hx | hx
      · right; rw [hx]; exact List.mem_map_of_mem Prod.fst (List.mem_cons_self f s)
      · rcases ihs hx with h1 | h1
        · exact Or.inl h1
        · right
          simp only [List.map_cons]
          exact List.mem_cons_of_mem _ h1

/-- `assocDel` only removes elements. -/
theorem assocDel_subset {α : Type} (k : ℤ) (x : ℤ × α) :
    ∀ t : List (ℤ × α), x ∈ assocDel t k → x ∈ t := by
  intro t
  induction t with
  | nil =>
    intro hx
    simp [assocDel] at hx
  | cons f s ihs =>
    intro hx
    by_cases hf : f.1 = k
    · simp only [assocDel, if_pos hf] at hx
      exact List.mem_cons_of_mem f hx
    · simp only [assocDel, if_neg hf] at hx
      rw [List.mem_cons] at hx
      rcases hx with hx | hx
      · exact hx ▸ List.mem_cons_self f s
      · exact List.mem_cons_of_mem f (ihs hx)

/-- `assocSet` preserves key uniqueness. -/
theorem keysNodup_set {α : Type} (l : List (ℤ × α)) (k : ℤ) (v : α) (hn : keysNodup l) :
    keysNodup (assocSet l k v) := by
  induction l with
  | nil => simp [assocSet, keysNodup]
  | cons e t ih =>
    rw [keysNodup, List.map_cons, List.nodup_cons] at hn
    by_cases he : e.1 = k
    · subst he
      simpa [assocSet, keysNodup] using hn
    · simp only [assocSet, if_neg he]
      rw [keysNodup, List.map_cons, List.nodup_cons]
      refine ⟨?_, ih hn.2⟩
      intro hmem
      rcases List.mem_map.1 hmem with ⟨x, hx, hxe⟩
      rcases assocSet_key_mem k v x t hx with h1 | h1
      · exact he (hxe ▸ h1 ▸ rfl)
      · exact hn.1 (hxe ▸ h1)

/-- `assocDel` preserves key uniqueness. -/
theorem keysNodup_del {α : Type} (l : List (ℤ × α)) (k : ℤ) (hn : keysNodup l) :
    keysNodup (assocDel l k) := by
  induction l with
  | nil => exact hn
  | cons e t ih =>
    rw [keysNodup, List.map_cons, List.nodup_cons] at hn
    by_cases he : e.1 = k
    · simpa [assocDel, he] using hn.2
    · simp only [assocDel, if_neg he]
      rw [keysNodup, List.map_cons, List.nodup_cons]
      refine ⟨?_, ih hn.2⟩
      intro hmem
      rcases List.mem_map.1 hmem with ⟨x, hx, hxe⟩
      exact hn.1 (hxe ▸ List.mem_map_of_mem Prod.fst (assocDel_subset k x t hx))

/-- Membership in the loop range `[a, b]`. -/
theorem mem_intRange {a b y : ℤ} : y ∈ intRange a b ↔ a ≤ y ∧ y ≤ b := by
  unfold intRange
  constructor
  · intro hy
    rcases List.mem_map.1 hy with ⟨i, hi, rfl⟩
    rw [List.mem_range] at hi
    omega
  · intro h
    refine List.mem_map.2 ⟨(y - a).toNat, ?_, ?_⟩
    · rw [List.mem_range]; omega
    · omega

/-- Writing a cell at `(x, y)` leaves every other coordinate unchanged. -/
theorem cellAt_setCellAt_ne (m : TileMap) (x y x' y' : ℤ) (c : Cell)
    (h : ¬ (x' = x ∧ y' = y)) : cellAt (setCellAt m x y c) x' y' = cellAt m x' y' := by
  unfold setCellAt cellAt
  cases hrow : assocGet m y with
  | none =>
    by_cases hy : y' = y
    · subst hy
      rw [assocGet_set_self, hrow]
      have hx2 : ¬ (x = x') := fun he => h ⟨he.symm, rfl⟩
      show assocGet [(x, c)] x' = none
      simp [assocGet, List.find?, hx2]
    · rw [assocGet_set_ne m y y' _ hy]
  | some row =>
    by_cases hy : y' = y
    · subst hy
      rw [assocGet_set_self, hrow]
      have hx2 : x' ≠ x := fun he => h ⟨he, rfl⟩
      show assocGet (assocSet row x c) x' = assocGet row x'
      exact assocGet_set_ne row x x' c hx2
    · rw [assocGet_set_ne m y y' _ hy]

/-- Writing a cell makes it present. -/
theorem cellAt_setCellAt_self (m : TileMap) (x y : ℤ) (c : Cell) :
    cellAt (setCellAt m x y c) x y = some c := by
  unfold setCellAt cellAt
  cases hrow : assocGet m y with
  | none => rw [assocGet_set_self]; exact assocGet_set_self [] x c
  | some row => rw [assocGet_set_self]; exact assocGet_set_self row x c

/-- Creating a fresh empty row changes no cell. -/
theorem cellAt_freshRow (m : TileMap) (y' x y : ℤ) (hrow : assocGet m y' = none) :
    cellAt (assocSet m y' []) x y = cellAt m x y := by
  unfold cellAt
  by_cases hy : y = y'
  · subst hy
    rw [assocGet_set_self, hrow]
    rfl
  · rw [assocGet_set_ne m y' y _ hy]

/-- One `fillCell` step preserves any present cell. -/
theorem fillCell_preserves (gen : Generator) (ve y' : ℤ) (m : TileMap) (x' x y : ℤ)
    (c : Cell) (h : cellAt m x y = some c) :
    cellAt (fillCell gen ve y' m x') x y = some c := by
  unfold fillCell
  split
  · exact h
  · rename_i hskip
    by_cases he : x = x' ∧ y = y'
    · exfalso
      rcases he with ⟨rfl, rfl⟩
      exact hskip (Or.inr (by rw [h]; rfl))
    · rw [cellAt_setCellAt_ne _ _ _ _ _ _ (fun ⟨h1, h2⟩ => he ⟨h1, h2⟩)]
      exact h

/-- A whole row sweep preserves any present cell. -/
theorem fillRow_preserves (gen : Generator) (ve start stop : ℤ) (y' x y : ℤ) (c : Cell) :
    ∀ m : TileMap, cellAt m x y = some c →
      cellAt (fillRow gen ve start stop m y') x y = some c := by
  unfold fillRow
  intro m h
  have h1 : cellAt (if (assocGet m y').isSome then m else assocSet m y' []) x y = some c := by
    split
    · exact h
    · rename_i hne
      rw [cellAt_freshRow m y' x y (by cases hg : assocGet m y' with
          | none => rfl
          | some r => rw [hg] at hne; simp at hne)]
      exact h
  generalize (if (assocGet m y').isSome then m else assocSet m y' []) = m1 at h1
  clear h
  induction intRange start stop generalizing m1 with
  | nil => exact h1
  | cons a l ih => exact ih _ (fillCell_preserves gen ve y' m1 a x y c h1)

/-- The whole region sweep preserves any present cell. -/
theorem fillRegion_preserves (gen : Generator) (ve start stop x y : ℤ) (c : Cell) :
    ∀ m : TileMap, cellAt m x y = some c →
      cellAt (fillRegion gen ve start stop m) x y = some c := by
  unfold fillRegion
  induction intRange start stop with
  | nil => intro m h; exact h
  | cons a l ih =>
    intro m h
    exact ih _ (fillRow_preserves gen ve start stop a x y c m h)

/-- `fillCell` creates cells only at its own coordinate. -/
theorem fillCell_isSome (gen : Generator) (ve y' : ℤ) (m : TileMap) (x' x y : ℤ)
    (h : (cellAt (fillCell gen ve y' m x') x y).isSome) :
    (cellAt m x y).isSome ∨ (x = x' ∧ y = y') := by
  unfold fillCell at h
  split at h
  · exact Or.inl h
  · by_cases he : x = x' ∧ y = y'
    · exact Or.inr he
    · rw [cellAt_setCellAt_ne _ _ _ _ _ _ he] at h
      exact Or.inl h

/-- The row-creation step of `fillRow` changes no cell. -/
theorem cellAt_ensureRow (m : TileMap) (y' x y : ℤ) :
    cellAt (if (assocGet m y').isSome then m else assocSet m y' []) x y = cellAt m x y := by
  split
  · rfl
  · rename_i hne
    refine cellAt_freshRow m y' x y ?_
    cases hg : assocGet m y' with
    | none => rfl
    | some r => rw [hg] at hne; simp at hne

/-- Folding `fillCell` over a column list creates cells only in that
list and row. -/
theorem fillCells_fold_isSome (gen : Generator) (ve y' x y : ℤ) :
    ∀ (xs : List ℤ) (m : TileMap),
      (cellAt (xs.foldl (fillCell gen ve y') m) x y).isSome →
      (cellAt m x y).isSome ∨ (x ∈ xs ∧ y = y') := by
  intro xs
  induction xs with
  | nil => intro m h; exact Or.inl h
  | cons a l ih =>
    intro m h
    rcases ih (fillCell gen ve y' m a) h with h1 | h1
    · rcases fillCell_isSome gen ve y' m a x y h1 with h2 | h2
      · exact Or.inl h2
      · exact Or.inr ⟨h2.1 ▸ List.mem_cons_self a l, h2.2⟩
    · exact Or.inr ⟨List.mem_cons_of_mem a h1.1, h1.2⟩

/-- `fillRow` creates cells only in its own row and the column range. -/
theorem fillRow_isSome (gen : Generator) (ve start stop y' x y : ℤ) (m : TileMap)
    (h : (cellAt (fillRow gen ve start stop m y') x y).isSome) :
    (cellAt m x y).isSome ∨ (x ∈ intRange start stop ∧ y = y') := by
  unfold fillRow at h
  rcases fillCells_fold_isSome gen ve y' x y (intRange start stop) _ h with h1 | h1
  · rw [cellAt_ensureRow] at h1
    exact Or.inl h1
  · exact Or.inr h1

/-- `fillRegion` creates cells only inside `[start, stop]²`. -/
theorem fillRegion_isSome (gen : Generator) (ve start stop x y : ℤ) (m : TileMap)
    (h : (cellAt (fillRegion gen ve start stop m) x y).isSome) :
    (cellAt m x y).isSome ∨ (x ∈ intRange start stop ∧ y ∈ intRange start stop) := by
  have aux : ∀ (ys : List ℤ) (m0 : TileMap),
      (cellAt (ys.foldl (fillRow gen ve start stop) m0) x y).isSome →
      (cellAt m0 x y).isSome ∨ (x ∈ intRange start stop ∧ y ∈ ys) := by
    intro ys
    induction ys with
    | nil => intro m0 h0; exact Or.inl h0
    | cons a l ih =>
      intro m0 h0
      rcases ih (fillRow gen ve start stop m0 a) h0 with h1 | h1
      · rcases fillRow_isSome gen ve start stop a x y m0 h1 with h2 | h2
        · exact Or.inl h2
        · exact Or.inr ⟨h2.1, h2.2 ▸ List.mem_cons_self a l⟩
      · exact Or.inr ⟨h1.1, List.mem_cons_of_mem a h1.2⟩
  exact aux (intRange start stop) m h

/-- `setCellAt` touches only its own row key. -/
theorem assocGet_setCellAt_ne (m : TileMap) (x y y2 : ℤ) (c : Cell) (h : y2 ≠ y) :
    assocGet (setCellAt m x y c) y2 = assocGet m y2 := by
  unfold setCellAt
  cases hrow : assocGet m y with
  | none => exact assocGet_set_ne m y y2 _ h
  | some row => exact assocGet_set_ne m y y2 _ h

/-- `fillCell` touches only its own row key. -/
theorem assocGet_fillCell_ne (gen : Generator) (ve y' : ℤ) (m : TileMap) (x' y2 : ℤ)
    (h : y2 ≠ y') : assocGet (fillCell gen ve y' m x') y2 = assocGet m y2 := by
  unfold fillCell
  split
  · rfl
  · exact assocGet_setCellAt_ne m x' y' y2 _ h

/-- `fillRow` creates row keys only for its own row. -/
theorem fillRow_rowSome (gen : Generator) (ve start stop y' y : ℤ) (m : TileMap)
    (h : (assocGet (fillRow gen ve start stop m y') y).isSome) :
    (assocGet m y).isSome ∨ y = y' := by
  by_cases hy : y = y'
  · exact Or.inr hy
  · left
    unfold fillRow at h
    have aux : ∀ (xs : List ℤ) (m0 : TileMap),
        (assocGet (xs.foldl (fillCell gen ve y') m0) y).isSome →
        (assocGet m0 y).isSome := by
      intro xs
      induction xs with
      | nil => intro m0 h0; exact h0
      | cons a l ih =>
        intro m0 h0
        have := ih (fillCell gen ve y' m0 a) h0
        rwa [assocGet_fillCell_ne gen ve y' m0 a y hy] at this
    have h1 := aux (intRange start stop) _ h
    split at h1
    · exact h1
    · rwa [assocGet_set_ne m y' y _ hy] at h1

/-- `fillRegion` creates row keys only inside `[start, stop]`. -/
theorem fillRegion_rowSome (gen : Generator) (ve start stop y : ℤ) (m : TileMap)
    (h : (assocGet (fillRegion gen ve start stop m) y).isSome) :
    (assocGet m y).isSome ∨ y ∈ intRange start stop := by
  have aux : ∀ (ys : List ℤ) (m0 : TileMap),
      (assocGet (ys.foldl (fillRow gen ve start stop) m0) y).isSome →
      (assocGet m0 y).isSome ∨ y ∈ ys := by
    intro ys
    induction ys with
    | nil => intro m0 h0; exact Or.inl h0
    | cons a l ih =>
      intro m0 h0
      rcases ih (fillRow gen ve start stop m0 a) h0 with h1 | h1
      · rcases fillRow_rowSome gen ve start stop a y m0 h1 with h2 | h2
        · exact Or.inl h2
        · exact Or.inr (h2 ▸ List.mem_cons_self a l)
      · exact Or.inr (List.mem_cons_of_mem a h1)
  exact aux (intRange start stop) m h

/-- A coordinate inside the old `[·, viewportEnd)²` corner is never
rewritten by `fillCell`. -/
theorem fillCell_protected (gen : Generator) (ve y' : ℤ) (m : TileMap) (x' x y : ℤ)
    (hx : x < ve) (hy : y < ve) : cellAt (fillCell gen ve y' m x') x y = cellAt m x y := by
  unfold fillCell
  split
  · rfl
  · rename_i hskip
    refine cellAt_setCellAt_ne m x' y' x y _ ?_
    rintro ⟨rfl, rfl⟩
    exact hskip (Or.inl ⟨hx, hy⟩)

/-- A coordinate inside the old corner is never rewritten by `fillRow`. -/
theorem fillRow_protected (gen : Generator) (ve start stop y' x y : ℤ) (m : TileMap)
    (hx : x < ve) (hy : y < ve) :
    cellAt (fillRow gen ve start stop m y') x y = cellAt m x y := by
  unfold fillRow
  have aux : ∀ (xs : List ℤ) (m0 : TileMap),
      cellAt (xs.foldl (fillCell gen ve y') m0) x y = cellAt m0 x y := by
    intro xs
    induction xs with
    | nil => intro m0; rfl
    | cons a l ih =>
      intro m0
      rw [List.foldl_cons, ih (fillCell gen ve y' m0 a),
        fillCell_protected gen ve y' m0 a x y hx hy]
  rw [aux (intRange start stop) _, cellAt_ensureRow]

/-- A coordinate inside the old corner is never rewritten by the sweep. -/
theorem fillRegion_protected (gen : Generator) (ve start stop x y : ℤ) (m : TileMap)
    (hx : x < ve) (hy : y < ve) :
    cellAt (fillRegion gen ve start stop m) x y = cellAt m x y := by
  unfold fillRegion
  have aux : ∀ (ys : List ℤ) (m0 : TileMap),
      cellAt (ys.foldl (fillRow gen ve start stop) m0) x y = cellAt m0 x y := by
    intro ys
    induction ys with
    | nil => intro m0; rfl
    | cons a l ih =>
      intro m0
      rw [List.foldl_cons, ih (fillRow gen ve start stop m0 a),
        fillRow_protected gen ve start stop a x y m0 hx hy]
  exact aux (intRange start stop) m

/-- After folding deletions over a key list, a key not in the list is
unchanged. -/
theorem foldDel_get_notMem {α : Type} (y : ℤ) :
    ∀ (ks : List ℤ), y ∉ ks → ∀ l : List (ℤ × α),
      assocGet (ks.foldl assocDel l) y = assocGet l y := by
  intro ks
  induction ks with
  | nil => intro _ l; rfl
  | cons k t ih =>
    intro hnot l
    have hne : y ≠ k := fun he => hnot (he ▸ List.mem_cons_self k t)
    have hnt : y ∉ t := fun hm => hnot (List.mem_cons_of_mem k hm)
    rw [show (k :: t).foldl assocDel l = t.foldl assocDel (assocDel l k) from rfl,
      ih hnt (assocDel l k), assocGet_del_ne l k y hne]

/-- Deletion folds keep absent keys absent. -/
theorem foldDel_get_none {α : Type} (y : ℤ) :
    ∀ (ks : List ℤ) (l : List (ℤ × α)), assocGet l y = none →
      assocGet (ks.foldl assocDel l) y = none := by
  intro ks
  induction ks with
  | nil => intro l h; exact h
  | cons k t ih =>
    intro l h
    exact ih (assocDel l k) (assocGet_del_none l k y h)

/-- Deletion folds preserve key uniqueness. -/
theorem foldDel_nodup {α : Type} :
    ∀ (ks : List ℤ) (l : List (ℤ × α)), keysNodup l → keysNodup (ks.foldl assocDel l) := by
  intro ks
  induction ks with
  | nil => intro l h; exact h
  | cons k t ih => intro l h; exact ih (assocDel l k) (keysNodup_del l k h)

/-- With unique keys, a key in the deletion list ends up absent. -/
theorem foldDel_get_mem {α : Type} (y : ℤ) :
    ∀ (ks : List ℤ), y ∈ ks → ∀ l : List (ℤ × α), keysNodup l →
      assocGet (ks.foldl assocDel l) y = none := by
  intro ks
  induction ks with
  | nil => intro h; exact absurd h (List.not_mem_nil y)
  | cons k t ih =>
    intro hmem l hn
    by_cases he : y = k
    · subst he
      exact foldDel_get_none y t (assocDel l y) (assocGet_del_self l y hn)
    · rw [List.mem_cons] at hmem
      rcases hmem with h1 | h1
      · exact absurd h1 he
      · exact ih h1 (assocDel l k) (keysNodup_del l k hn)

/-- `setCellAt` preserves outer-key uniqueness. -/
theorem setCellAt_nodup (m : TileMap) (x y : ℤ) (c : Cell) (hn : keysNodup m) :
    keysNodup (setCellAt m x y c) := by
  unfold setCellAt
  cases assocGet m y with
  | none => exact keysNodup_set m y _ hn
  | some row => exact keysNodup_set m y _ hn

/-- `fillCell` preserves outer-key uniqueness. -/
theorem fillCell_nodup (gen : Generator) (ve y' : ℤ) (m : TileMap) (x' : ℤ)
    (hn : keysNodup m) : keysNodup (fillCell gen ve y' m x') := by
  unfold fillCell
  split
  · exact hn
  · exact setCellAt_nodup m x' y' _ hn

/-- `fillRow` preserves outer-key uniqueness. -/
theorem fillRow_nodup (gen : Generator) (ve start stop y' : ℤ) (m : TileMap)
    (hn : keysNodup m) : keysNodup (fillRow gen ve start stop m y') := by
  unfold fillRow
  have h1 : keysNodup (if (assocGet m y').isSome then m else assocSet m y' []) := by
    split
    · exact hn
    · exact keysNodup_set m y' [] hn
  generalize (if (assocGet m y').isSome then m else assocSet m y' []) = m1 at h1
  clear hn
  induction intRange start stop generalizing m1 with
  | nil => exact h1
  | cons a l ih => exact ih (fillCell gen ve y' m1 a) (fillCell_nodup gen ve y' m1 a h1)

/-- `fillRegion` preserves outer-key uniqueness. -/
theorem fillRegion_nodup (gen : Generator) (ve start stop : ℤ) :
    ∀ m : TileMap, keysNodup m → keysNodup (fillRegion gen ve start stop m) := by
  unfold fillRegion
  induction intRange start stop with
  | nil => intro m hn; exact hn
  | cons a l ih =>
    intro m hn
    exact ih (fillRow gen ve start stop m a) (fillRow_nodup gen ve start stop a m hn)

/-- `generateWorld` preserves outer-key uniqueness. -/
theorem generateWorld_nodup (gen : Generator) (start stop : ℤ) (w : WorldSt)
    (hn : keysNodup w.tiles) : keysNodup (generateWorld gen start stop w).tiles := by
  unfold generateWorld
  have h1 : keysNodup (if max 0 start > w.viewportStart then
      (intRange w.viewportStart (max 0 start - 1)).foldl assocDel w.tiles else w.tiles) := by
    split
    · exact foldDel_nodup _ w.tiles hn
    · exact hn
  split
  · exact fillRegion_nodup gen w.viewportEnd (max 0 start) stop _ h1
  · exact h1

/-- Deletion folds only remove bindings. -/
theorem foldDel_isSome {α : Type} (ks : List ℤ) (l : List (ℤ × α)) (y : ℤ)
    (h : (assocGet (ks.foldl assocDel l) y).isSome) : (assocGet l y).isSome := by
  cases hg : assocGet l y with
  | some v => rfl
  | none => rw [foldDel_get_none y ks l hg] at h; exact absurd h (by simp)

/-- The boundaries stored by `generateWorld`. -/
theorem generateWorld_viewport (gen : Generator) (start stop : ℤ) (w : WorldSt) :
    (generateWorld gen start stop w).viewportStart = max 0 start ∧
    (generateWorld gen start stop w).viewportEnd = stop := ⟨rfl, rfl⟩

/-- When the trailing edge does not advance, every present cell survives
`generateWorld` unchanged (no cell is evicted when only the far edge
grows). -/
theorem generateWorld_preserves_cell (gen : Generator) (start stop : ℤ) (w : WorldSt)
    (x y : ℤ) (c : Cell) (hstart : max 0 start ≤ w.viewportStart)
    (h : cellAt w.tiles x y = some c) :
    cellAt (generateWorld gen start stop w).tiles x y = some c := by
  show cellAt (if stop > w.viewportEnd then _ else _) x y = some c
  have hdel : ¬ (max 0 start > w.viewportStart) := not_lt.2 hstart
  split
  · exact fillRegion_preserves gen w.viewportEnd (max 0 start) stop x y c _ h
  · exact h

/-- Row keys surviving `generateWorld` lie between the stored
boundaries, provided the previous rows did and the far edge does not
retreat. -/
theorem generateWorld_row_bounds (gen : Generator) (start stop : ℤ) (w : WorldSt)
    (hn : keysNodup w.tiles)
    (hrows : ∀ y, (assocGet w.tiles y).isSome → w.viewportStart ≤ y ∧ y ≤ w.viewportEnd)
    (hstop : w.viewportEnd ≤ stop) :
    ∀ y, (assocGet (generateWorld gen start stop w).tiles y).isSome →
      (generateWorld gen start stop w).viewportStart ≤ y ∧
      y ≤ (generateWorld gen start stop w).viewportEnd := by
  intro y hy
  rw [(generateWorld_viewport gen start stop w).1, (generateWorld_viewport gen start stop w).2]
  have hdel : ∀ hy1 : (assocGet (if max 0 start > w.viewportStart then
      (intRange w.viewportStart (max 0 start - 1)).foldl assocDel w.tiles
      else w.tiles) y).isSome, max 0 start ≤ y ∧ y ≤ w.viewportEnd := by
    intro hy1
    split at hy1
    · rename_i hadv
      have hpre : (assocGet w.tiles y).isSome := foldDel_isSome _ w.tiles y hy1
      have hb := hrows y hpre
      by_cases hmem : y ∈ intRange w.viewportStart (max 0 start - 1)
      · rw [foldDel_get_mem y _ hmem w.tiles hn] at hy1
        exact absurd hy1 (by simp)
      · rw [mem_intRange] at hmem
        exact ⟨by omega, hb.2⟩
    · rename_i hadv
      have hb := hrows y hy1
      exact ⟨by omega, hb.2⟩
  have hy2 : (assocGet (generateWorld gen start stop w).tiles y).isSome := hy
  show max 0 start ≤ y ∧ y ≤ stop
  revert hy2
  show (assocGet (if stop > w.viewportEnd then _ else _) y).isSome → _
  split
  · intro hy2
    rcases fillRegion_rowSome gen w.viewportEnd (max 0 start) stop y _ hy2 with h1 | h1
    · have := hdel h1
      exact ⟨this.1, by omega⟩
    · rw [mem_intRange] at h1
      exact ⟨h1.1, h1.2⟩
  · intro hy2
    have := hdel hy2
    exact ⟨this.1, by omega⟩

/-- When the old far edge is at least `2`, `generateWorld` leaves the
cell at `(1, 1)` either untouched or evicted (never reclassified). -/
theorem generateWorld_cell11 (gen : Generator) (start stop : ℤ) (w : WorldSt)
    (hn : keysNodup w.tiles) (hve : 2 ≤ w.viewportEnd) :
    cellAt (generateWorld gen start stop w).tiles 1 1 = cellAt w.tiles 1 1 ∨
    cellAt (generateWorld gen start stop w).tiles 1 1 = none := by
  have h11 : (1 : ℤ) < w.viewportEnd := by omega
  have hdel : cellAt (if max 0 start > w.viewportStart then
      (intRange w.viewportStart (max 0 start - 1)).foldl assocDel w.tiles
      else w.tiles) 1 1 = cellAt w.tiles 1 1 ∨
      cellAt (if max 0 start > w.viewportStart then
      (intRange w.viewportStart (max 0 start - 1)).foldl assocDel w.tiles
      else w.tiles) 1 1 = none := by
    split
    · by_cases hmem : (1 : ℤ) ∈ intRange w.viewportStart (max 0 start - 1)
      · right
        unfold cellAt
        rw [foldDel_get_mem 1 _ hmem w.tiles hn]
      · left
        unfold cellAt
        rw [foldDel_get_notMem 1 _ hmem w.tiles]
    · exact Or.inl rfl
  have hfinal : cellAt (generateWorld gen start stop w).tiles 1 1 =
      cellAt (if max 0 start > w.viewportStart then
      (intRange w.viewportStart (max 0 start - 1)).foldl assocDel w.tiles
      else w.tiles) 1 1 := by
    show cellAt (if stop > w.viewportEnd then _ else _) 1 1 = _
    split
    · exact fillRegion_protected gen w.viewportEnd (max 0 start) stop 1 1 _ h11 h11
    · rfl
  rw [hfinal]
  exact hdel

/-- A present key is among the list's keys. -/
theorem assocGet_isSome_key_mem {α : Type} (l : List (ℤ × α)) (y : ℤ)
    (h : (assocGet l y).isSome) : y ∈ l.map Prod.fst := by
  unfold assocGet at h
  cases hf : List.find? (fun e => e.1 = y) l with
  | none => rw [hf] at h; exact absurd h (by simp)
  | some e =>
    have hp := List.find?_some hf
    have hm := List.mem_of_find?_eq_some hf
    simp only [decide_eq_true_eq] at hp
    exact hp ▸ List.mem_map_of_mem Prod.fst hm

/-- With unique keys, deleting preserves the values of other bindings. -/
theorem assocGet_del_some {α : Type} (l : List (ℤ × α)) (k y : ℤ) (v : α)
    (hn : keysNodup l) (h : assocGet (assocDel l k) y = some v) : assocGet l y = some v := by
  by_cases he : y = k
  · subst he
    rw [assocGet_del_self l y hn] at h
    exact absurd h (by simp)
  · rwa [assocGet_del_ne l k y he] at h

/-- Deletion folds preserve surviving bindings' values. -/
theorem foldDel_get_some {α : Type} (ks : List ℤ) :
    ∀ (l : List (ℤ × α)) (y : ℤ) (v : α), keysNodup l →
      assocGet (ks.foldl assocDel l) y = some v → assocGet l y = some v := by
  induction ks with
  | nil => intro l y v _ h; exact h
  | cons k t ih =>
    intro l y v hn h
    exact assocGet_del_some l k y v hn
      (ih (assocDel l k) y v (keysNodup_del l k hn) h)

/-- Deletion folds preserve surviving cells. -/
theorem foldDel_cellAt_isSome (ks : List ℤ) (l : TileMap) (x y : ℤ) (hn : keysNodup l)
    (h : (cellAt (ks.foldl assocDel l) x y).isSome) : (cellAt l x y).isSome := by
  unfold cellAt at h ⊢
  cases hg : assocGet (ks.foldl assocDel l) y with
  | none => rw [hg] at h; exact absurd h (by simp)
  | some row =>
    rw [hg] at h
    rw [foldDel_get_some ks l y row hn hg]
    exact h

/-- Cells surviving or created by `generateWorld` have coordinates at
least the clamped `start`; in particular never negative. -/
theorem generateWorld_cells_nonneg (gen : Generator) (start stop : ℤ) (w : WorldSt)
    (hn : keysNodup w.tiles)
    (h : ∀ x y, (cellAt w.tiles x y).isSome → 0 ≤ x ∧ 0 ≤ y) :
    ∀ x y, (cellAt (generateWorld gen start stop w).tiles x y).isSome → 0 ≤ x ∧ 0 ≤ y := by
  intro x y hxy
  have hdel : ∀ h1 : (cellAt (if max 0 start > w.viewportStart then
      (intRange w.viewportStart (max 0 start - 1)).foldl assocDel w.tiles
      else w.tiles) x y).isSome, 0 ≤ x ∧ 0 ≤ y := by
    intro h1
    split at h1
    · exact h x y (foldDel_cellAt_isSome _ w.tiles x y hn h1)
    · exact h x y h1
  revert hxy
  show (cellAt (if stop > w.viewportEnd then _ else _) x y).isSome → _
  split
  · intro hxy
    rcases fillRegion_isSome gen w.viewportEnd (max 0 start) stop x y _ hxy with h1 | h1
    · exact hdel h1
    · rw [mem_intRange, mem_intRange] at h1
      constructor <;> [exact le_trans (le_max_left 0 start) h1.1.1;
        exact le_trans (le_max_left 0 start) h1.2.1]
  · intro hxy
    exact hdel hxy

/-! ## C5: window materialization and eviction -/

/-- A concrete classifier (everything walkable, no power-ups) for
concrete evaluations. -/
def genTileOnly : Generator := ⟨fun _ _ => false, fun _ _ => true⟩

/-- The world after materializing `[0, 3]` on the seeded world. -/
def worldAfter03 : WorldSt := generateWorld genTileOnly 0 3 seededWorld

set_option maxRecDepth 4000 in
/-- C5 (counterexample): materialize `[0, 3]`, then advance to `[2, 4]`
(so `start` exceeds the previous `viewportStart = 0`).  The cell at
`(x, y) = (0, 2)` survives although its `x` coordinate `0` lies behind
the new `viewportStart = 2`: eviction removes whole rows `y < start`
only, never stale columns. -/
theorem c5_counterexample :
    worldAfter03.viewportStart = 0 ∧
    (generateWorld genTileOnly 2 4 worldAfter03).viewportStart = 2 ∧
    (generateWorld genTileOnly 2 4 worldAfter03).viewportEnd = 4 ∧
    (cellAt (generateWorld genTileOnly 2 4 worldAfter03).tiles 0 2).isSome = true := by
  decide

/-- C5 (amended): (a) under unique row keys, rows in the previous
boundaries and a non-retreating far edge, every *row* key surviving
`materializeWindow` lies inside the new `[viewportStart, viewportEnd]`
(rows behind the new trailing edge are evicted — but stale columns
inside surviving rows may keep `x < viewportStart`); (b) when the
trailing edge does not advance, no cell is evicted. -/
theorem c5_amended :
    (∀ (gen : Generator) (start stop : ℤ) (w : WorldSt), keysNodup w.tiles →
      (∀ y, (assocGet w.tiles y).isSome → w.viewportStart ≤ y ∧ y ≤ w.viewportEnd) →
      w.viewportEnd ≤ stop →
      ∀ y, (assocGet (generateWorld gen start stop w).tiles y).isSome →
        (generateWorld gen start stop w).viewportStart ≤ y ∧
        y ≤ (generateWorld gen start stop w).viewportEnd) ∧
    (∀ (gen : Generator) (start stop : ℤ) (w : WorldSt) (x y : ℤ) (c : Cell),
      max 0 start ≤ w.viewportStart → cellAt w.tiles x y = some c →
      cellAt (generateWorld gen start stop w).tiles x y = some c) :=
  ⟨fun gen start stop w hn hrows hstop =>
      generateWorld_row_bounds gen start stop w hn hrows hstop,
    fun gen start stop w x y c h1 h2 =>
      generateWorld_preserves_cell gen start stop w x y c h1 h2⟩

set_option maxRecDepth 4000 in
/-- Witness for C5 on the concrete world `worldAfter03`. -/
theorem c5_amended_witness :
    ((generateWorld genTileOnly 2 4 worldAfter03).viewportStart ≤ 2 ∧
      2 ≤ (generateWorld genTileOnly 2 4 worldAfter03).viewportEnd) ∧
    cellAt (generateWorld genTileOnly 0 4 worldAfter03).tiles 1 1 = some Cell.tile := by
  have hrows : ∀ y, (assocGet worldAfter03.tiles y).isSome →
      worldAfter03.viewportStart ≤ y ∧ y ≤ worldAfter03.viewportEnd := by
    intro y hy
    have hk := assocGet_isSome_key_mem worldAfter03.tiles y hy
    rw [show worldAfter03.tiles.map Prod.fst = [1, 0, 2, 3] from by decide] at hk
    have hvs : worldAfter03.viewportStart = 0 := by decide
    have hve : worldAfter03.viewportEnd = 3 := by decide
    rw [hvs, hve]
    simp only [List.mem_cons, List.not_mem_nil, or_false] at hk
    rcases hk with rfl | rfl | rfl | rfl <;> omega
  refine ⟨c5_amended.1 genTileOnly 2 4 worldAfter03 (by unfold keysNodup; decide) hrows
      (by decide) 2 (by decide), ?_⟩
  exact c5_amended.2 genTileOnly 0 4 worldAfter03 1 1 Cell.tile (by decide) (by decide)

/-! ## C10: the viewport never goes negative -/

/-- The seeded world's only cell is at `(1, 1)`. -/
theorem seededWorld_cells (x y : ℤ) (h : (cellAt seededWorld.tiles x y).isSome) :
    x = 1 ∧ y = 1 := by
  unfold cellAt at h
  cases hg : assocGet seededWorld.tiles y with
  | none => rw [hg] at h; exact absurd h (by simp)
  | some row =>
    rw [hg] at h
    have hy := assocGet_isSome_key_mem seededWorld.tiles y (by rw [hg]; rfl)
    rw [show seededWorld.tiles.map Prod.fst = [1] from rfl] at hy
    simp only [List.mem_cons, List.not_mem_nil, or_false] at hy
    subst hy
    have hrow : row = [(1, Cell.tile)] := by
      have : assocGet seededWorld.tiles 1 = some [(1, Cell.tile)] := rfl
      rw [hg] at this
      exact (Option.some.inj this)
    subst hrow
    have hx := assocGet_isSome_key_mem [((1 : ℤ), Cell.tile)] x h
    simp only [List.map_cons, List.map_nil, List.mem_cons, List.not_mem_nil, or_false] at hx
    exact ⟨hx, rfl⟩

/-- C10: `viewportStart` is `0` after construction; every
`materializeWindow` call stores `max 0 start` (a negative `start` is
treated as `0`), so the invariant `viewportStart ≥ 0` is preserved; and
no cell with a negative coordinate is ever materialized. -/
theorem c10_viewport_invariant :
    (∀ (gen : Generator) (st : GameSettings), 0 ≤ (Game.init gen st).world.viewportStart ∧
      (∀ x y, (cellAt (Game.init gen st).world.tiles x y).isSome → 0 ≤ x ∧ 0 ≤ y)) ∧
    (∀ (gen : Generator) (start stop : ℤ) (w : WorldSt),
      (generateWorld gen start stop w).viewportStart = max 0 start ∧
      0 ≤ (generateWorld gen start stop w).viewportStart) ∧
    (∀ (gen : Generator) (start stop : ℤ) (w : WorldSt), keysNodup w.tiles →
      (∀ x y, (cellAt w.tiles x y).isSome → 0 ≤ x ∧ 0 ≤ y) →
      ∀ x y, (cellAt (generateWorld gen start stop w).tiles x y).isSome →
        0 ≤ x ∧ 0 ≤ y) := by
  refine ⟨?_, ?_, ?_⟩
  · intro gen st
    constructor
    · rw [show (Game.init gen st).world = generateWorld gen 0 st.rendererTilesOnScreen
        seededWorld from rfl, (generateWorld_viewport gen 0 st.rendererTilesOnScreen
        seededWorld).1]
      norm_num
    · intro x y h
      rw [show (Game.init gen st).world = generateWorld gen 0 st.rendererTilesOnScreen
        seededWorld from rfl] at h
      refine generateWorld_cells_nonneg gen 0 st.rendererTilesOnScreen seededWorld
        (by unfold keysNodup; decide) ?_ x y h
      intro x' y' h'
      have := seededWorld_cells x' y' h'
      omega
  · intro gen start stop w
    exact ⟨(generateWorld_viewport gen start stop w).1, by
      rw [(generateWorld_viewport gen start stop w).1]; exact le_max_left 0 start⟩
  · intro gen start stop w hn h
    exact generateWorld_cells_nonneg gen start stop w hn h

set_option maxRecDepth 4000 in
/-- Witness for C10 at a concrete negative `start`. -/
theorem c10_viewport_invariant_witness :
    ((generateWorld genTileOnly (-7) 2 seededWorld).viewportStart = max 0 (-7) ∧
      0 ≤ (generateWorld genTileOnly (-7) 2 seededWorld).viewportStart) ∧
    ((cellAt (generateWorld genTileOnly (-7) 2 seededWorld).tiles 1 1).isSome →
      (0 : ℤ) ≤ 1 ∧ (0 : ℤ) ≤ 1) := by
  refine ⟨c10_viewport_invariant.2.1 genTileOnly (-7) 2 seededWorld, ?_⟩
  intro h
  refine c10_viewport_invariant.2.2 genTileOnly (-7) 2 seededWorld
    (by unfold keysNodup; decide) ?_ 1 1 h
  intro x' y' h'
  have := seededWorld_cells x' y' h'
  omega

/-! ## C9: the hand-seeded tile at (1, 1) -/

/-- A classifier that marks every coordinate a power-up (standing in for
a seed, which the windowing logic never inspects). -/
def genAllPowerUp : Generator := ⟨fun _ _ => true, fun _ _ => true⟩

/-- A sequence of `materializeWindow` calls folded over a world. -/
def runCalls (gen : Generator) (calls : List (ℤ × ℤ)) (w : WorldSt) : WorldSt :=
  calls.foldl (fun w c => generateWorld gen c.1 c.2 w) w

/-- A small configuration (initial window `[0, 3]`) keeping the
counterexample evaluation tractable; every other field is the default. -/
def settingsSmall : GameSettings :=
  { defaultSettings with rendererTilesOnScreen := 3 }

set_option maxRecDepth 8000 in
/-- C9 (counterexample): the run starts with the hand-seeded plain tile
at `(1, 1)`, but the call sequence advance-to-`[2,3]`,
shrink-to-`[0,1]`, regrow-to-`[0,5]` first evicts row `1` and then
re-creates `(1, 1)` from the generator's own classification — here a
power-up cell, not the seeded tile. -/
theorem c9_counterexample :
    cellAt (Game.init genAllPowerUp settingsSmall).world.tiles 1 1 = some Cell.tile ∧
    cellAt (runCalls genAllPowerUp [(2, 3), (0, 1), (0, 5)]
        (Game.init genAllPowerUp settingsSmall).world).tiles 1 1 =
      some (classifyCell genAllPowerUp 1 1) ∧
    classifyCell genAllPowerUp 1 1 = Cell.powerUpTile false 0 := by
  decide

/-- C9 (amended): at run start the World contains the seeded plain tile
at `(1, 1)` for every generator; and along every sequence of
materialization calls whose far edge stays at least `2` (the
constructor's initial window satisfies this), the cell at `(1, 1)` is
forever either that seeded tile or evicted — never reclassified, so no
power-up can sit there. -/
theorem c9_amended (gen : Generator) (st : GameSettings)
    (hst : 2 ≤ st.rendererTilesOnScreen) (calls : List (ℤ × ℤ))
    (h2 : ∀ c ∈ calls, 2 ≤ c.2) :
    cellAt (Game.init gen st).world.tiles 1 1 = some Cell.tile ∧
    (cellAt (runCalls gen calls (Game.init gen st).world).tiles 1 1 = some Cell.tile ∨
      cellAt (runCalls gen calls (Game.init gen st).world).tiles 1 1 = none) := by
  have hinit_cell : cellAt (Game.init gen st).world.tiles 1 1 = some Cell.tile :=
    generateWorld_preserves_cell gen 0 st.rendererTilesOnScreen seededWorld 1 1 Cell.tile
      (by simp [seededWorld]) (by decide)
  have hinit_nodup : keysNodup (Game.init gen st).world.tiles :=
    generateWorld_nodup gen 0 st.rendererTilesOnScreen seededWorld
      (by unfold keysNodup; decide)
  have hinit_ve : 2 ≤ (Game.init gen st).world.viewportEnd := by
    rw [show (Game.init gen st).world
        = generateWorld gen 0 st.rendererTilesOnScreen seededWorld from rfl,
      (generateWorld_viewport gen 0 st.rendererTilesOnScreen seededWorld).2]
    exact hst
  have hinv : ∀ (cs : List (ℤ × ℤ)), (∀ c ∈ cs, 2 ≤ c.2) →
      ∀ w : WorldSt, keysNodup w.tiles → 2 ≤ w.viewportEnd →
      (cellAt w.tiles 1 1 = some Cell.tile ∨ cellAt w.tiles 1 1 = none) →
      (cellAt (runCalls gen cs w).tiles 1 1 = some Cell.tile ∨
        cellAt (runCalls gen cs w).tiles 1 1 = none) := by
    intro cs
    induction cs with
    | nil => intro _ w _ _ hc; exact hc
    | cons c t ih =>
      intro hall w hn hve hc
      refine ih (fun d hd => hall d (List.mem_cons_of_mem c hd)) (generateWorld gen c.1 c.2 w)
        (generateWorld_nodup gen c.1 c.2 w hn) ?_ ?_
      · rw [(generateWorld_viewport gen c.1 c.2 w).2]
        exact hall c (List.mem_cons_self c t)
      · rcases generateWorld_cell11 gen c.1 c.2 w hn hve with h1 | h1
        · rw [h1]; exact hc
        · exact Or.inr h1
  exact ⟨hinit_cell, hinv calls h2 _ hinit_nodup hinit_ve (Or.inl hinit_cell)⟩

set_option maxRecDepth 4000 in
/-- Witness for C9: the run-start world plus one forward advance. -/
theorem c9_amended_witness :
    cellAt (Game.init genTileOnly defaultSettings).world.tiles 1 1 = some Cell.tile ∧
    (cellAt (runCalls genTileOnly [(2, 15)]
        (Game.init genTileOnly defaultSettings).world).tiles 1 1 = some Cell.tile ∨
      cellAt (runCalls genTileOnly [(2, 15)]
        (Game.init genTileOnly defaultSettings).world).tiles 1 1 = none) :=
  c9_amended genTileOnly defaultSettings (by decide) [(2, 15)] (by decide)

/-! ## Bookkeeping lemmas for the update sub-step -/

/-- `consumeStep` changes only the player and the world. -/
theorem consumeStep_fields (st : GameSettings) (t1 : ℚ) (g2 : Game) (e : ℤ × ℤ × Cell) :
    (consumeStep st t1 g2 e).t = g2.t ∧ (consumeStep st t1 g2 e).score = g2.score ∧
    (consumeStep st t1 g2 e).gameOver = g2.gameOver ∧
    (consumeStep st t1 g2 e).gameOverAt = g2.gameOverAt ∧
    (consumeStep st t1 g2 e).jumpQueued = g2.jumpQueued := by
  unfold consumeStep
  split <;> exact ⟨rfl, rfl, rfl, rfl, rfl⟩

/-- The power-up loop changes only the player and the world. -/
theorem consumeFold_fields (st : GameSettings) (t1 : ℚ) (l : List (ℤ × ℤ × Cell)) :
    ∀ g0 : Game, (l.foldl (consumeStep st t1) g0).t = g0.t ∧
      (l.foldl (consumeStep st t1) g0).score = g0.score ∧
      (l.foldl (consumeStep st t1) g0).gameOver = g0.gameOver ∧
      (l.foldl (consumeStep st t1) g0).gameOverAt = g0.gameOverAt ∧
      (l.foldl (consumeStep st t1) g0).jumpQueued = g0.jumpQueued := by
  induction l with
  | nil => intro g0; exact ⟨rfl, rfl, rfl, rfl, rfl⟩
  | cons e t ih =>
    intro g0
    have h1 := consumeStep_fields st t1 g0 e
    have h2 := ih (consumeStep st t1 g0 e)
    rw [List.foldl_cons]
    exact ⟨h2.1.trans h1.1, h2.2.1.trans h1.2.1, h2.2.2.1.trans h1.2.2.1,
      h2.2.2.2.1.trans h1.2.2.2.1, h2.2.2.2.2.trans h1.2.2.2.2⟩

/-- The collision block changes only the player and the world. -/
theorem collisionStep_fields (m : JsMath) (st : GameSettings) (t1 : ℚ) (g g2 : Game)
    (h : collisionStep m st t1 g = some g2) :
    g2.t = g.t ∧ g2.score = g.score ∧ g2.gameOver = g.gameOver ∧
    g2.gameOverAt = g.gameOverAt ∧ g2.jumpQueued = g.jumpQueued := by
  unfold collisionStep at h
  split at h
  · split at h
    · exact absurd h (by simp)
    · split at h
      · dsimp only at h
        split at h
        · cases Option.some.inj h
          exact (consumeFold_fields st t1 _ _)
        · cases Option.some.inj h
          exact ⟨rfl, rfl, rfl, rfl, rfl⟩
      · split at h
        · cases Option.some.inj h
          exact ⟨rfl, rfl, rfl, rfl, rfl⟩
        · cases Option.some.inj h
          exact ⟨rfl, rfl, rfl, rfl, rfl⟩
  · cases Option.some.inj h
    exact ⟨rfl, rfl, rfl, rfl, rfl⟩

/-- The closing block only raises the score. -/
theorem finalizeStep_score (st : GameSettings) (t1 : ℚ) (g : Game) :
    g.score ≤ (finalizeStep st t1 g).score := by
  simp only [finalizeStep]
  split <;> exact le_max_left _ _

/-- The closing block does not touch the clock. -/
theorem finalizeStep_t (st : GameSettings) (t1 : ℚ) (g : Game) :
    (finalizeStep st t1 g).t = g.t := by
  simp only [finalizeStep]
  split <;> rfl

/-- The closing block either leaves the game-over pair alone or fires
the one-way transition, stamping the current sub-step time. -/
theorem finalizeStep_cases (st : GameSettings) (t1 : ℚ) (g : Game) :
    ((finalizeStep st t1 g).gameOver = g.gameOver ∧
      (finalizeStep st t1 g).gameOverAt = g.gameOverAt) ∨
    ((finalizeStep st t1 g).gameOver = true ∧ (finalizeStep st t1 g).gameOverAt = t1 ∧
      g.gameOver = false) := by
  simp only [finalizeStep]
  split
  · rename_i hc
    right
    exact ⟨rfl, rfl, by simpa using hc.1⟩
  · left
    exact ⟨rfl, rfl⟩

/-- Bookkeeping across one sub-step: the score never drops, a raised
game-over flag (with its timestamp) survives untouched, and a freshly
raised flag is stamped with the sub-step's end time. -/
theorem updateCore_fields (m : JsMath) (st : GameSettings) (inputs : GameInputs)
    (direction : QVect) (g : Game) (e : ℚ) (g1 : Game) (dt : ℚ)
    (h : updateCore m st inputs direction g e = some (g1, dt)) :
    g.score ≤ g1.score ∧
    (g.gameOver = true → g1.gameOver = true ∧ g1.gameOverAt = g.gameOverAt) ∧
    (g.gameOver = false → g1.gameOver = true → g1.gameOverAt = g1.t) := by
  simp only [updateCore] at h
  split at h
  · exact absurd h (by simp)
  · rename_i g2 hcol
    injection (Option.some.inj h) with h1 h2
    have hfields := collisionStep_fields _ _ _ _ _ hcol
    obtain ⟨t1, gmid, hmid_t, hmid_score, hmid_go, hmid_goAt, hfin⟩ :
        ∃ t1 gmid, gmid.t = t1 ∧ gmid.score = g.score ∧ gmid.gameOver = g.gameOver ∧
          gmid.gameOverAt = g.gameOverAt ∧ finalizeStep st t1 gmid = g1 :=
      ⟨_, _, hfields.1, hfields.2.1, hfields.2.2.1, hfields.2.2.2.1, h1⟩
    rw [← hfin]
    refine ⟨?_, ?_, ?_⟩
    · rw [← hmid_score]
      exact finalizeStep_score st t1 gmid
    · intro hgo
      rcases finalizeStep_cases st t1 gmid with hc | hc
      · rw [hc.1, hc.2, hmid_go, hmid_goAt]
        exact ⟨hgo, rfl⟩
      · rw [hmid_go, hgo] at hc
        exact absurd hc.2.2 (by simp)
    · intro hfalse htrue
      rcases finalizeStep_cases st t1 gmid with hc | hc
      · rw [hc.1, hmid_go, hfalse] at htrue
        exact absurd htrue (by simp)
      · rw [hc.2.1, finalizeStep_t st t1 gmid, hmid_t]

/-- The bookkeeping of `updateCore_fields`, carried through the direction
normalization of `updateOnce`. -/
theorem updateOnce_fields (m : JsMath) (st : GameSettings) (inputs : GameInputs)
    (g : Game) (e : ℚ) (g1 : Game) (dt : ℚ)
    (h : updateOnce m st inputs g e = some (g1, dt)) :
    g.score ≤ g1.score ∧
    (g.gameOver = true → g1.gameOver = true ∧ g1.gameOverAt = g.gameOverAt) ∧
    (g.gameOver = false → g1.gameOver = true → g1.gameOverAt = g1.t) := by
  simp only [updateOnce, bind] at h
  split at h
  · rw [Option.bind_eq_some] at h
    obtain ⟨d, -, h⟩ := h
    exact updateCore_fields m st inputs d g e g1 dt h
  · rw [Option.some_bind] at h
    exact updateCore_fields m st inputs inputs.direction g e g1 dt h

/-- The bookkeeping carried through a whole budgeted `update` call: the
score never drops and a raised game-over flag (with its timestamp)
survives untouched. -/
theorem updateFuel_fields (m : JsMath) (st : GameSettings) (inputs : GameInputs) :
    ∀ (n : ℕ) (g : Game) (e : ℚ) (g1 : Game),
      updateFuel m st inputs n g e = some (some g1) →
      g.score ≤ g1.score ∧
      (g.gameOver = true → g1.gameOver = true ∧ g1.gameOverAt = g.gameOverAt) := by
  intro n
  induction n with
  | zero =>
    intro g e g1 h
    exact absurd h (by simp [updateFuel])
  | succ k ih =>
    intro g e g1 h
    simp only [updateFuel] at h
    split at h
    · exact absurd h (by simp)
    · rename_i g2 dt hstep
      have hone := updateOnce_fields m st inputs g e g2 dt hstep
      split at h
      · have hrest := ih g2 (e - dt) g1 h
        refine ⟨le_trans hone.1 hrest.1, ?_⟩
        intro hgo
        obtain ⟨h2go, h2at⟩ := hone.2.1 hgo
        obtain ⟨h1go, h1at⟩ := hrest.2 h2go
        exact ⟨h1go, h1at.trans h2at⟩
      · injection h with h'
        injection h' with h''
        subst h''
        exact ⟨hone.1, hone.2.1⟩

/-- A sequence of budgeted `update` calls, each with its own inputs,
budget and elapsed time, chained through the two failure modes. -/
def runUpdates (m : JsMath) (st : GameSettings) :
    List (GameInputs × ℕ × ℚ) → Game → Option (Option Game)
  | [], g => some (some g)
  | c :: rest, g =>
    match updateFuel m st c.1 c.2.1 g c.2.2 with
    | none => none
    | some none => some none
    | some (some g1) => runUpdates m st rest g1

/-- The bookkeeping carried through any sequence of `update` calls. -/
theorem runUpdates_fields (m : JsMath) (st : GameSettings) :
    ∀ (calls : List (GameInputs × ℕ × ℚ)) (g g1 : Game),
      runUpdates m st calls g = some (some g1) →
      g.score ≤ g1.score ∧
      (g.gameOver = true → g1.gameOver = true ∧ g1.gameOverAt = g.gameOverAt) := by
  intro calls
  induction calls with
  | nil =>
    intro g g1 h
    simp only [runUpdates] at h
    injection h with h'
    injection h' with h''
    subst h''
    exact ⟨le_refl _, fun hgo => ⟨hgo, rfl⟩⟩
  | cons c rest ih =>
    intro g g1 h
    simp only [runUpdates] at h
    split at h
    · exact absurd h (by simp)
    · exact absurd h (by simp)
    · rename_i g2 hstep
      have hone := updateFuel_fields m st c.1 c.2.1 g c.2.2 g2 hstep
      have hrest := ih g2 g1 h
      refine ⟨le_trans hone.1 hrest.1, ?_⟩
      intro hgo
      obtain ⟨h2go, h2at⟩ := hone.2 hgo
      obtain ⟨h1go, h1at⟩ := hrest.2 h2go
      exact ⟨h1go, h1at.trans h2at⟩

/-! ## C7 and C6: score monotonicity and the terminal game-over flag -/

/-- A concrete interpretation of the transcendental primitives, used to
instantiate the parametric theorems on closed game states. -/
def stubM : JsMath :=
  ⟨fun x => x / 7 - 1, fun x => 1 - x / 3, fun y x => y + 2 * x + 1 / 3, fun x => x / 2 + 1 / 4⟩

/-- Idle inputs: no held direction, no jump request. -/
def inW : GameInputs := ⟨QVect.zero, false⟩

/-- Inputs holding only the jump request. -/
def inJump : GameInputs := ⟨QVect.zero, true⟩

/-- A freshly seeded game state over the hand-placed tile. -/
def gW : Game where
  t := 0
  score := 0
  gameOver := false
  gameOverAt := 0
  world := seededWorld
  cameraPosition := defaultSettings.gameInitialPosition
  player := Player.init defaultSettings
  jumpQueued := false

/-- The state reached from `gW` by one idle update of `1/100` seconds. -/
def gW1 : Game :=
  match updateFuel stubM defaultSettings inW 1 gW (1 / 100) with
  | some (some g) => g
  | _ => gW

/-- C7: whenever a budgeted `update` call returns normally, and likewise
across any sequence of such calls with any inputs, budgets and elapsed
times, the integer score never decreases. -/
theorem c7_score_monotone :
    (∀ (m : JsMath) (st : GameSettings) (inputs : GameInputs) (n : ℕ) (g : Game) (e : ℚ)
        (g1 : Game), updateFuel m st inputs n g e = some (some g1) → g.score ≤ g1.score) ∧
    (∀ (m : JsMath) (st : GameSettings) (calls : List (GameInputs × ℕ × ℚ)) (g g1 : Game),
        runUpdates m st calls g = some (some g1) → g.score ≤ g1.score) :=
  ⟨fun m st inputs n g e g1 h => (updateFuel_fields m st inputs n g e g1 h).1,
   fun m st calls g g1 h => (runUpdates_fields m st calls g g1 h).1⟩

set_option maxRecDepth 2000 in
theorem c7_score_monotone_witness : gW.score ≤ gW1.score :=
  c7_score_monotone.1 stubM defaultSettings inW 1 gW (1 / 100) gW1 (by with_unfolding_all rfl)

/-- A game state whose run has already ended at time `7`, floating above
the ground so the collision block is skipped. -/
def gDead : Game :=
  { gW with
    gameOver := true
    gameOverAt := 7
    player := { Player.init defaultSettings with position := ⟨3 / 2, 3 / 2, 1⟩ } }

/-- The state reached from `gDead` by one idle update of `1/100` seconds. -/
def gDead1 : Game :=
  match runUpdates stubM defaultSettings [(inW, 1, 1 / 100)] gDead with
  | some (some g) => g
  | _ => gDead

/-- C6: across any sequence of `update` calls that return normally, a
raised game-over flag never clears and its timestamp never changes; and
within the sub-step that first raises the flag, the timestamp is set to
that sub-step's end time. -/
theorem c6_game_over_terminal :
    (∀ (m : JsMath) (st : GameSettings) (calls : List (GameInputs × ℕ × ℚ)) (g g1 : Game),
        runUpdates m st calls g = some (some g1) → g.gameOver = true →
        g1.gameOver = true ∧ g1.gameOverAt = g.gameOverAt) ∧
    (∀ (m : JsMath) (st : GameSettings) (inputs : GameInputs) (direction : QVect) (g : Game)
        (e : ℚ) (g1 : Game) (dt : ℚ), updateCore m st inputs direction g e = some (g1, dt) →
        g.gameOver = false → g1.gameOver = true → g1.gameOverAt = g1.t) :=
  ⟨fun m st calls g g1 h hgo => (runUpdates_fields m st calls g g1 h).2 hgo,
   fun m st inputs direction g e g1 dt h => (updateCore_fields m st inputs direction g e g1 dt h).2.2⟩

set_option maxRecDepth 2000 in
theorem c6_game_over_terminal_witness :
    gDead1.gameOver = true ∧ gDead1.gameOverAt = gDead.gameOverAt :=
  c6_game_over_terminal.1 stubM defaultSettings [(inW, 1, 1 / 100)] gDead gDead1
    (by with_unfolding_all rfl) (by decide)

/-! ## C1: handling of the jump request -/

/-- An avatar that is airborne and mid-turn, holding the altitude and
turn state from which the altitude event fires after `1/50` seconds. -/
def gLand : Game :=
  { gW with
    player := { Player.init defaultSettings with
      inAir := true
      inRotation := true
      inAirSince := 0
      inRotationSince := 0
      rotation := 0
      velocity := ⟨0, 0, 3 / 10⟩
      position := ⟨3 / 2, 3 / 2, 0⟩ } }

/-- The state reached from `gLand` by one update of `1/50` seconds with
the jump request held. -/
def gLand1 : Game :=
  match updateFuel stubM defaultSettings inJump 1 gLand (1 / 50) with
  | some (some g) => g
  | _ => gLand

set_option maxRecDepth 2000 in
/-- C1 counterexample: the avatar of `gLand` is airborne with the jump
request held, and it lands during the sub-step (the altitude event
fires, the collision block clears `inAir`), yet no jump fires at that
landing: because the landing happens mid-turn, the avatar comes to rest
with zero velocity — not the configured jump velocity — and the request
is merely recorded in `jumpQueued`. -/
theorem c1_counterexample :
    updateFuel stubM defaultSettings inJump 1 gLand (1 / 50) = some (some gLand1) ∧
    gLand.player.inAir = true ∧
    gLand1.player.inAir = false ∧
    gLand1.player.inRotation = true ∧
    gLand1.player.velocity = QVect.zero ∧
    gLand1.player.velocity ≠ defaultSettings.playerJumpVelocity ∧
    gLand1.jumpQueued = true :=
  ⟨by with_unfolding_all rfl, by decide, by with_unfolding_all decide, by with_unfolding_all decide, by with_unfolding_all decide, by with_unfolding_all decide, by with_unfolding_all decide⟩

/-- C1 (amended): with the jump request asserted, the input-examination
block leaves an airborne avatar completely untouched (the request is not
even recorded); a grounded, non-turning avatar jumps immediately and the
queue is cleared; a grounded avatar that is still mid-turn — in
particular one that landed mid-turn in this very sub-step — does not
jump and only records the request in `jumpQueued`, so the jump fires
only at the first sub-step that finds the avatar grounded and not
turning while the request is still asserted or queued. -/
theorem c1_jump_handling :
    (∀ (t1 : ℚ) (jq : Bool) (p : Player), p.inAir = true →
        examineInputsStep t1 true jq p = (p, jq)) ∧
    (∀ (t1 : ℚ) (jq : Bool) (p : Player), p.inAir = false → p.inRotation = false →
        examineInputsStep t1 true jq p = (p.jump t1, false)) ∧
    (∀ (t1 : ℚ) (jq : Bool) (p : Player), p.inAir = false → p.inRotation = true →
        examineInputsStep t1 true jq p = (p, true)) := by
  refine ⟨?_, ?_, ?_⟩
  · intro t1 jq p h1
    simp [examineInputsStep, h1]
  · intro t1 jq p h1 h2
    simp [examineInputsStep, h1, h2]
  · intro t1 jq p h1 h2
    simp [examineInputsStep, h1, h2]

theorem c1_jump_handling_witness :
    examineInputsStep 0 true false (Player.init defaultSettings) =
      ((Player.init defaultSettings).jump 0, false) :=
  c1_jump_handling.2.1 0 false (Player.init defaultSettings) (by decide) (by decide)
